import Mathlib

/-!
Shallow embedding of `QueueManager.cpp`: multiple byte FIFO queues inside one
fixed 2048-byte storage region.  The C storage overlay (descriptor table,
global allocator state, segment pool) is modelled as a typed state record;
machine integers become `Nat` with an explicit `% 256` where the `uint8_t`
cursors are incremented.  Fatal faults (`on_out_of_memory`,
`on_illegal_operation`), which print a diagnostic and terminate the process,
are modelled as `Except.error` values: an operation that faults returns no
result to the caller.
-/

namespace QueueManager

/-- Total bytes available in the storage block (`DATA_SIZE`). -/
def DATA_SIZE : Nat := 2048

/-- Queue limit (`MAX_QUEUES`). -/
def MAX_QUEUES : Nat := 64

/-- Bytes per queue descriptor (`DESCRIPTOR_SIZE`). -/
def DESCRIPTOR_SIZE : Nat := 8

/-- Bytes of the descriptor table (`DESCRIPTORS_AREA`). -/
def DESCRIPTORS_AREA : Nat := MAX_QUEUES * DESCRIPTOR_SIZE

/-- Bytes of the global allocator state (`GLOBAL_DATA_SIZE`). -/
def GLOBAL_DATA_SIZE : Nat := 8

/-- Payload bytes per segment (`SEG_PAYLOAD_SIZE`). -/
def SEG_PAYLOAD_SIZE : Nat := 14

/-- Bytes per segment record: payload plus 2-byte next index (`SEG_SIZE`). -/
def SEG_SIZE : Nat := SEG_PAYLOAD_SIZE + 2

/-- Number of segments in the pool (`SEGMENT_COUNT`), computed by integer
division from the space left after the descriptor table and global state. -/
def SEGMENT_COUNT : Nat := (DATA_SIZE - DESCRIPTORS_AREA - GLOBAL_DATA_SIZE) / SEG_SIZE

/-- Sentinel index meaning "no segment" (`INVALID_INDEX = UINT16_MAX`). -/
def INVALID_INDEX : Nat := 65535

/-- Global allocator state (`struct GlobalData`). -/
structure GlobalData where
  free_list_head : Nat
  next_unused : Nat
  initialized : Nat
deriving DecidableEq

/-- Queue descriptor (`struct Q`); the `pad` byte exists only to make
`sizeof == 8` and carries no state, so it is not modelled. -/
structure Q where
  head_segment : Nat
  tail_segment : Nat
  head_offset : Nat
  tail_offset : Nat
  in_use : Nat
deriving DecidableEq

/-- Segment record (`struct Segment`): next index plus a 14-byte payload,
modelled as a total function from offsets to byte values. -/
structure Segment where
  next : Nat
  data : Nat → Nat

/-- The typed view of the 2048-byte region (`union DataOverlay`): descriptor
table, global allocator state, and the segment pool.  We model the arrays as
total functions on `Nat`; every index the verified operations touch lies
inside the real array bounds. -/
structure State where
  descriptors : Nat → Q
  global_data : GlobalData
  segments : Nat → Segment

/-- The two fatal fault kinds: `on_out_of_memory` and `on_illegal_operation`.
Both print a diagnostic and terminate the process, so neither path ever
returns a value to the caller. -/
inductive Fault where
  | outOfMemory
  | illegalOperation
deriving DecidableEq

/-- The zero-initialized storage region (`unsigned char data[2048] = {0}`). -/
def initState : State :=
  { descriptors := fun _ => ⟨0, 0, 0, 0, 0⟩
    global_data := ⟨0, 0, 0⟩
    segments := fun _ => ⟨0, fun _ => 0⟩ }

/-- Update descriptor `i` (writing through a `Q*` into the table). -/
def setQ (s : State) (i : Nat) (q : Q) : State :=
  { s with descriptors := Function.update s.descriptors i q }

/-- Update segment `i` (writing through `seg(i)`). -/
def setSeg (s : State) (i : Nat) (g : Segment) : State :=
  { s with segments := Function.update s.segments i g }

/-- `allocate_segment`: lazy one-time initialization, then free-list pop,
then bump allocation; pool exhaustion is a fatal out-of-memory fault. -/
def allocate_segment (s0 : State) : Except Fault (Nat × State) :=
  let s := if s0.global_data.initialized = 0 then
             { s0 with global_data := ⟨INVALID_INDEX, 0, 1⟩ }
           else s0
  if s.global_data.free_list_head ≠ INVALID_INDEX then
    let idx := s.global_data.free_list_head
    .ok (idx, { s with global_data :=
      { s.global_data with free_list_head := (s.segments idx).next } })
  else if s.global_data.next_unused < SEGMENT_COUNT then
    .ok (s.global_data.next_unused, { s with global_data :=
      { s.global_data with next_unused := s.global_data.next_unused + 1 } })
  else
    .error .outOfMemory

/-- `free_segment`: push `idx` onto the front of the global free list. -/
def free_segment (idx : Nat) (s : State) : State :=
  let s1 := setSeg s idx { s.segments idx with next := s.global_data.free_list_head }
  { s1 with global_data := { s1.global_data with free_list_head := idx } }

/-- The freshly created descriptor contents written by `create_queue`:
in_use = 1, head = tail = sentinel, both offsets 0. -/
def freshQ : Q := ⟨INVALID_INDEX, INVALID_INDEX, 0, 0, 1⟩

/-- The `for` loop of `create_queue`, scanning slots `i, i+1, ...` with
`fuel` slots left to inspect. -/
def createFrom (s : State) : Nat → Nat → Except Fault (Nat × State)
  | _, 0 => .error .outOfMemory
  | i, fuel + 1 =>
    if (s.descriptors i).in_use = 0 then
      .ok (i, setQ s i freshQ)
    else
      createFrom s (i + 1) fuel

/-- `create_queue`: scan slots 0 .. MAX_QUEUES-1 for the first free
descriptor; all-slots-busy is a fatal out-of-memory fault.  The returned
handle is the descriptor index. -/
def create_queue (s : State) : Except Fault (Nat × State) :=
  createFrom s 0 MAX_QUEUES

/-- The while loop of `destroy_queue`: walk the chain from `idx` following
next links, pushing every segment onto the free list.  The C loop runs until
the sentinel; a well-formed chain has at most `SEGMENT_COUNT` segments, so
fuel `SEGMENT_COUNT` reproduces it exactly. -/
def freeChain : Nat → Nat → State → State
  | 0, _, s => s
  | fuel + 1, idx, s =>
    if idx = INVALID_INDEX then s
    else
      let nxt := (s.segments idx).next
      freeChain fuel nxt (free_segment idx s)

/-- `destroy_queue`: validate the handle (pointer within the descriptor
table and in_use), return all chain segments to the free list, clear
in_use.  An invalid handle is a fatal illegal-operation fault. -/
def destroy_queue (qi : Nat) (s : State) : Except Fault State :=
  if MAX_QUEUES ≤ qi then .error .illegalOperation
  else if (s.descriptors qi).in_use = 0 then .error .illegalOperation
  else
    let s1 := freeChain SEGMENT_COUNT (s.descriptors qi).head_segment s
    .ok (setQ s1 qi { s1.descriptors qi with in_use := 0 })

/-- Shared allocation pattern of `enqueue_byte`: `allocate_segment()`
followed by `seg(new_seg).next = INVALID_INDEX`. -/
def allocAttached (s : State) : Except Fault (Nat × State) :=
  match allocate_segment s with
  | .error e => .error e
  | .ok (ns, s1) => .ok (ns, setSeg s1 ns { s1.segments ns with next := INVALID_INDEX })

/-- The write `tail.data[q->tail_offset++] = b` of `enqueue_byte`: store the
byte at the tail segment's write cursor, then advance the `uint8_t` cursor
modulo 256. -/
def writeTail (qi b : Nat) (s : State) : State :=
  let d := s.descriptors qi
  let ti := d.tail_segment
  let s1 := setSeg s ti { s.segments ti with
    data := Function.update (s.segments ti).data d.tail_offset b }
  setQ s1 qi { d with tail_offset := (d.tail_offset + 1) % 256 }

/-- The rollover of `enqueue_byte` after allocating `ns`: link the old
tail's next to `ns`, make `ns` the tail, reset the write cursor. -/
def linkNewTail (qi ns : Nat) (s : State) : State :=
  let old_tail := (s.descriptors qi).tail_segment
  let s1 := setSeg s old_tail { s.segments old_tail with next := ns }
  setQ s1 qi { s1.descriptors qi with tail_segment := ns, tail_offset := 0 }

/-- First phase of `enqueue_byte`: if the queue is empty (tail sentinel),
allocate a fresh segment and make it both head and tail with cursors 0. -/
def enqPrepare (qi : Nat) (s0 : State) : Except Fault State :=
  if (s0.descriptors qi).tail_segment = INVALID_INDEX then
    match allocAttached s0 with
    | .error e => .error e
    | .ok (ns, s1) => .ok (setQ s1 qi { s1.descriptors qi with
        head_segment := ns, tail_segment := ns,
        head_offset := 0, tail_offset := 0 })
  else .ok s0

/-- Second phase of `enqueue_byte`: write the byte at the write cursor and,
if the tail segment just became full, eagerly allocate and link a fresh
tail segment. -/
def enqWrite (qi b : Nat) (s : State) : Except Fault State :=
  if ((writeTail qi b s).descriptors qi).tail_offset = SEG_PAYLOAD_SIZE then
    match allocAttached (writeTail qi b s) with
    | .error e => .error e
    | .ok (ns, s3) => .ok (linkNewTail qi ns s3)
  else .ok (writeTail qi b s)

/-- `enqueue_byte`: validate the handle, allocate a first segment if the
queue is empty, write the byte at the write cursor, and on filling the
segment eagerly allocate and link a fresh tail segment. -/
def enqueue_byte (qi b : Nat) (s0 : State) : Except Fault State :=
  if (s0.descriptors qi).in_use = 0 then .error .illegalOperation else
  match enqPrepare qi s0 with
  | .error e => .error e
  | .ok s => enqWrite qi b s

/-- The read `head.data[q->head_offset++]` of `dequeue_byte`: the byte at
the head segment's read cursor (read before the cursor advances). -/
def deqValue (qi : Nat) (s : State) : Nat :=
  (s.segments (s.descriptors qi).head_segment).data (s.descriptors qi).head_offset

/-- The cursor advance of `dequeue_byte`: `q->head_offset++` on a `uint8_t`
cursor, modulo 256. -/
def deqAdvance (qi : Nat) (s : State) : State :=
  setQ s qi { s.descriptors qi with
    head_offset := ((s.descriptors qi).head_offset + 1) % 256 }

/-- The queue-became-empty reset of `dequeue_byte`: head and tail to the
sentinel, both cursors 0 (runs after the segment is freed). -/
def deqReset (qi : Nat) (s : State) : State :=
  setQ s qi { s.descriptors qi with
    head_segment := INVALID_INDEX, tail_segment := INVALID_INDEX,
    head_offset := 0, tail_offset := 0 }

/-- The head-segment-consumed move of `dequeue_byte`: advance head to the
segment's next link and reset the read cursor (runs before the old head is
freed). -/
def deqNextSeg (qi : Nat) (s : State) : State :=
  setQ s qi { s.descriptors qi with
    head_segment := (s.segments (s.descriptors qi).head_segment).next,
    head_offset := 0 }

/-- `dequeue_byte`: validate the handle and non-emptiness (head sentinel is
a fatal illegal-operation fault), read the byte at the read cursor, advance
it, then do the structural bookkeeping: queue-became-empty reset, or
head-segment-consumed advance, or nothing. -/
def dequeue_byte (qi : Nat) (s : State) : Except Fault (Nat × State) :=
  if (s.descriptors qi).in_use = 0 then .error .illegalOperation
  else if (s.descriptors qi).head_segment = INVALID_INDEX then .error .illegalOperation
  else
    if ((deqAdvance qi s).descriptors qi).head_segment =
         ((deqAdvance qi s).descriptors qi).tail_segment ∧
       ((deqAdvance qi s).descriptors qi).head_offset =
         ((deqAdvance qi s).descriptors qi).tail_offset then
      .ok (deqValue qi s, deqReset qi
        (free_segment ((deqAdvance qi s).descriptors qi).head_segment (deqAdvance qi s)))
    else if ((deqAdvance qi s).descriptors qi).head_offset = SEG_PAYLOAD_SIZE then
      .ok (deqValue qi s, free_segment ((deqAdvance qi s).descriptors qi).head_segment
        (deqNextSeg qi (deqAdvance qi s)))
    else
      .ok (deqValue qi s, deqAdvance qi s)

/-- Run a list of `enqueue_byte` calls on one queue, left to right. -/
def enqRun (qi : Nat) : List Nat → State → Except Fault State
  | [], s => .ok s
  | b :: bs, s =>
    match enqueue_byte qi b s with
    | .error e => .error e
    | .ok s' => enqRun qi bs s'

/-- Run `n` successive `dequeue_byte` calls on one queue, collecting the
returned bytes in order. -/
def deqRun (qi : Nat) : Nat → State → Except Fault (List Nat × State)
  | 0, s => .ok ([], s)
  | n + 1, s =>
    match dequeue_byte qi s with
    | .error e => .error e
    | .ok (b, s') =>
      match deqRun qi n s' with
      | .error e => .error e
      | .ok (bs, s'') => .ok (b :: bs, s'')

/-- The list `start, seg(start).next, ...` when it is a well-formed chain
ending at the sentinel: the free list and every queue's segment chain have
this shape. -/
def isChain (s : State) : Nat → List Nat → Prop
  | start, [] => start = INVALID_INDEX
  | start, x :: xs =>
    start = x ∧ x ≠ INVALID_INDEX ∧ isChain s (s.segments x).next xs

instance isChain.dec (s : State) : ∀ (start : Nat) (cs : List Nat), Decidable (isChain s start cs)
  | start, [] => inferInstanceAs (Decidable (start = INVALID_INDEX))
  | start, x :: xs =>
    have := isChain.dec s (s.segments x).next xs
    inferInstanceAs (Decidable (start = x ∧ x ≠ INVALID_INDEX ∧ isChain s (s.segments x).next xs))

/-- States reachable from process start through successful calls of the
four public operations (a faulting call terminates the process and so has
no successor state). -/
inductive Reachable : State → Prop
  | init : Reachable initState
  | create {s i s'} : Reachable s → create_queue s = .ok (i, s') → Reachable s'
  | destroy {s qi s'} : Reachable s → destroy_queue qi s = .ok s' → Reachable s'
  | enq {s qi b s'} : Reachable s → enqueue_byte qi b s = .ok s' → Reachable s'
  | deq {s qi b s'} : Reachable s → dequeue_byte qi s = .ok (b, s') → Reachable s'

/-- Cursor-bounds property: every in_use descriptor keeps both cursors
strictly below the 14-byte payload capacity. -/
def OffsetsOk (s : State) : Prop :=
  ∀ qi, (s.descriptors qi).in_use ≠ 0 →
    (s.descriptors qi).head_offset < SEG_PAYLOAD_SIZE ∧
    (s.descriptors qi).tail_offset < SEG_PAYLOAD_SIZE

/-- Extract the state of a successful stateful call (default: the initial
state; only ever applied to calls proved successful). -/
def okStateE : Except Fault State → State
  | .ok s => s
  | .error _ => initState

/-- Extract the state of a successful call returning a value and a state. -/
def okStateP : Except Fault (Nat × State) → State
  | .ok (_, s) => s
  | .error _ => initState

/-- Extract the state of a successful `deqRun`. -/
def okStateL : Except Fault (List Nat × State) → State
  | .ok (_, s) => s
  | .error _ => initState

/-- The index returned by a successful allocation or creation. -/
def okIdx : Except Fault (Nat × State) → Option Nat
  | .ok (i, _) => some i
  | .error _ => none

/-- State after `create_queue()` on the fresh region: queue handle 0. -/
def st0 : State := okStateP (create_queue initState)

/-- Fourteen distinct nonzero bytes: exactly one full segment payload. -/
def l14 : List Nat := [1, 2, 3, 4, 5, 6, 7, 8, 9, 10, 11, 12, 13, 14]

/-- State after enqueuing `l14` into queue 0 of `st0`. -/
def enq14 : State := okStateE (enqRun 0 l14 st0)

/-- State after then dequeuing all fourteen bytes. -/
def deq14 : State := okStateL (deqRun 0 14 enq14)

/-- State after enqueuing one byte into queue 0 of `st0`. -/
def st1 : State := okStateE (enqueue_byte 0 9 st0)

/-- A state whose 64 descriptor slots are all in use. -/
def allBusyState : State := { initState with descriptors := fun _ => ⟨0, 0, 0, 0, 1⟩ }

/-- A state whose segment pool is fully consumed: free list empty and bump
pointer at the ceiling. -/
def exhaustedState : State :=
  { initState with global_data := ⟨INVALID_INDEX, SEGMENT_COUNT, 1⟩ }

/-- An initialized allocator state with an empty free list and two
segments already handed out. -/
def liveState : State := { initState with global_data := ⟨INVALID_INDEX, 2, 1⟩ }

/-- A live state holding one queue whose chain is the two segments 0 → 1,
with an initialized allocator and an empty free list. -/
def chainState : State :=
  { descriptors := Function.update (fun _ => ⟨0, 0, 0, 0, 0⟩) 0 ⟨0, 1, 3, 5, 1⟩
    global_data := ⟨INVALID_INDEX, 2, 1⟩
    segments := fun j => if j = 0 then ⟨1, fun _ => 0⟩ else ⟨INVALID_INDEX, fun _ => 0⟩ }

/-- Whether a fallible call returned normally. -/
def returnsOk : Except Fault (Nat × State) → Bool
  | .ok _ => true
  | .error _ => false

/-- The allocator well-formedness invariant from the spec: either the lazy
allocator has never run (initialized flag clear), or the free list is a
sentinel-terminated chain of segment indices that all lie below the bump
pointer `next_unused`. -/
def AllocWF (s : State) : Prop :=
  s.global_data.initialized = 0 ∨
  ∃ F, isChain s s.global_data.free_list_head F ∧
    ∀ x ∈ F, x < s.global_data.next_unused

/-- The single-queue invariant after a run of enqueues: queue `qi` owns the
sentinel-terminated segment chain `C` (head at the front, tail at the back),
the write cursor sits at `t` in the tail segment, the bytes held are exactly
`L` laid out 14 per segment, and the free list `F` is a well-formed chain
disjoint from `C`. -/
structure EnqChain (qi : Nat) (C : List Nat) (t : Nat) (L F : List Nat) (s : State) : Prop where
  ginit : s.global_data.initialized ≠ 0
  flist : isChain s s.global_data.free_list_head F
  flt : ∀ x ∈ F, x < s.global_data.next_unused
  cne : C ≠ []
  cnd : C.Nodup
  cdisj : ∀ x ∈ C, x ∉ F
  clt : ∀ x ∈ C, x < s.global_data.next_unused
  cinv : ∀ x ∈ C, x ≠ INVALID_INDEX
  inuse : (s.descriptors qi).in_use ≠ 0
  head : (s.descriptors qi).head_segment = C.getD 0 0
  hoff : (s.descriptors qi).head_offset = 0
  tailseg : (s.descriptors qi).tail_segment = C.getD (C.length - 1) 0
  toff : (s.descriptors qi).tail_offset = t
  tlt : t < SEG_PAYLOAD_SIZE
  len : L.length = SEG_PAYLOAD_SIZE * (C.length - 1) + t
  chain : ∀ i, i + 1 < C.length → (s.segments (C.getD i 0)).next = C.getD (i + 1) 0
  tnext : (s.segments (C.getD (C.length - 1) 0)).next = INVALID_INDEX
  cdata : ∀ j, (hj : j < L.length) →
    (s.segments (C.getD (j / SEG_PAYLOAD_SIZE) 0)).data (j % SEG_PAYLOAD_SIZE) = L.get ⟨j, hj⟩

/-- The single-queue invariant during a run of dequeues: the read position is
at offset `r` of the `p`-th segment of the original chain `C`; segments
before position `p` have already been freed, so only the suffix of the chain
and of the byte layout `L` is constrained. -/
structure DeqChain (qi : Nat) (C : List Nat) (t p r : Nat) (L : List Nat) (s : State) : Prop where
  inuse : (s.descriptors qi).in_use ≠ 0
  plt : p < C.length
  head : (s.descriptors qi).head_segment = C.getD p 0
  hoff : (s.descriptors qi).head_offset = r
  tailseg : (s.descriptors qi).tail_segment = C.getD (C.length - 1) 0
  toff : (s.descriptors qi).tail_offset = t
  rlt : r < SEG_PAYLOAD_SIZE
  tlt : t < SEG_PAYLOAD_SIZE
  len : L.length = SEG_PAYLOAD_SIZE * (C.length - 1) + t
  cnd : C.Nodup
  cinv : ∀ x ∈ C, x ≠ INVALID_INDEX
  chain : ∀ i, p ≤ i → i + 1 < C.length → (s.segments (C.getD i 0)).next = C.getD (i + 1) 0
  cdata : ∀ j, SEG_PAYLOAD_SIZE * p + r ≤ j → ∀ (hj : j < L.length),
    (s.segments (C.getD (j / SEG_PAYLOAD_SIZE) 0)).data (j % SEG_PAYLOAD_SIZE) = L.get ⟨j, hj⟩

/-- A drained queue reached by an ordinary run: create, enqueue one byte,
dequeue it. Queue 0 is back to the Empty descriptor state while the freed
segment 0 sits on the allocator free list. -/
def drained : State := okStateP (dequeue_byte 0 st1)

/-- The state after refilling the drained queue with bytes 5, 6, 7 —
the first enqueue pops segment 0 back off the free list. -/
def wrefill : State := okStateE (enqRun 0 [5, 6, 7] drained)


/-! ### Frame lemmas for the state helpers -/

@[simp] theorem setQ_descriptors_self (s : State) (i : Nat) (q : Q) :
    (setQ s i q).descriptors i = q := by
  simp [setQ]

theorem setQ_descriptors_ne (s : State) (i j : Nat) (q : Q) (h : j ≠ i) :
    (setQ s i q).descriptors j = s.descriptors j := by
  simp [setQ, Function.update_noteq h]

@[simp] theorem setQ_global (s : State) (i : Nat) (q : Q) :
    (setQ s i q).global_data = s.global_data := rfl

@[simp] theorem setQ_segments (s : State) (i : Nat) (q : Q) :
    (setQ s i q).segments = s.segments := rfl

@[simp] theorem setSeg_segments_self (s : State) (i : Nat) (g : Segment) :
    (setSeg s i g).segments i = g := by
  simp [setSeg]

theorem setSeg_segments_ne (s : State) (i j : Nat) (g : Segment) (h : j ≠ i) :
    (setSeg s i g).segments j = s.segments j := by
  simp [setSeg, Function.update_noteq h]

@[simp] theorem setSeg_descriptors (s : State) (i : Nat) (g : Segment) :
    (setSeg s i g).descriptors = s.descriptors := rfl

@[simp] theorem setSeg_global (s : State) (i : Nat) (g : Segment) :
    (setSeg s i g).global_data = s.global_data := rfl

@[simp] theorem free_segment_descriptors (idx : Nat) (s : State) :
    (free_segment idx s).descriptors = s.descriptors := rfl

@[simp] theorem free_segment_flh (idx : Nat) (s : State) :
    (free_segment idx s).global_data.free_list_head = idx := rfl

@[simp] theorem free_segment_nu (idx : Nat) (s : State) :
    (free_segment idx s).global_data.next_unused = s.global_data.next_unused := rfl

@[simp] theorem free_segment_init_flag (idx : Nat) (s : State) :
    (free_segment idx s).global_data.initialized = s.global_data.initialized := rfl

@[simp] theorem free_segment_segments_self (idx : Nat) (s : State) :
    (free_segment idx s).segments idx =
      { s.segments idx with next := s.global_data.free_list_head } := by
  simp [free_segment]

theorem free_segment_segments_ne (idx j : Nat) (s : State) (h : j ≠ idx) :
    (free_segment idx s).segments j = s.segments j := by
  simp [free_segment, setSeg, Function.update_noteq h]

theorem free_segment_data (idx j : Nat) (s : State) :
    ((free_segment idx s).segments j).data = (s.segments j).data := by
  rcases eq_or_ne j idx with h | h
  · subst h; simp
  · rw [free_segment_segments_ne _ _ _ h]

/-! ### Characterizations of `allocate_segment` and `allocAttached` -/

theorem alloc_pop (s : State) (hi : s.global_data.initialized ≠ 0)
    (hf : s.global_data.free_list_head ≠ INVALID_INDEX) :
    allocate_segment s = .ok (s.global_data.free_list_head,
      { s with global_data := { s.global_data with
          free_list_head := (s.segments s.global_data.free_list_head).next } }) := by
  unfold allocate_segment
  rw [if_neg hi, if_pos hf]

theorem alloc_bump (s : State) (hi : s.global_data.initialized ≠ 0)
    (hf : s.global_data.free_list_head = INVALID_INDEX)
    (hn : s.global_data.next_unused < SEGMENT_COUNT) :
    allocate_segment s = .ok (s.global_data.next_unused,
      { s with global_data := { s.global_data with
          next_unused := s.global_data.next_unused + 1 } }) := by
  unfold allocate_segment
  rw [if_neg hi, if_neg (by simp [hf]), if_pos hn]

theorem alloc_exhausted (s : State) (hi : s.global_data.initialized ≠ 0)
    (hf : s.global_data.free_list_head = INVALID_INDEX)
    (hn : SEGMENT_COUNT ≤ s.global_data.next_unused) :
    allocate_segment s = .error .outOfMemory := by
  unfold allocate_segment
  rw [if_neg hi, if_neg (by simp [hf]), if_neg (by omega)]

theorem alloc_uninit (s : State) (hi : s.global_data.initialized = 0) :
    allocate_segment s = .ok (0,
      { s with global_data := ⟨INVALID_INDEX, 1, 1⟩ }) := by
  unfold allocate_segment
  rw [if_pos hi]
  rw [if_neg (by simp), if_pos (show 0 < SEGMENT_COUNT by decide)]

/-! ### Constant values -/

theorem seg_payload_eq : SEG_PAYLOAD_SIZE = 14 := rfl

theorem segment_count_eq : SEGMENT_COUNT = 95 := rfl

theorem invalid_index_eq : INVALID_INDEX = 65535 := rfl

theorem max_queues_eq : MAX_QUEUES = 64 := rfl

/-! ### Scan lemma for `create_queue` -/

theorem createFrom_all_busy (s : State) :
    ∀ fuel i, (∀ j, i ≤ j → j < i + fuel → (s.descriptors j).in_use ≠ 0) →
      createFrom s i fuel = .error .outOfMemory
  | 0, _, _ => rfl
  | fuel + 1, i, h => by
    unfold createFrom
    rw [if_neg (h i le_rfl (by omega))]
    exact createFrom_all_busy s fuel (i + 1) (fun j h1 h2 => h j (by omega) (by omega))

/-! ### Claim theorems: layout, fatal paths, allocator round trip -/

/-- Claim C4 counterexample: the three compile-time region sizes sum to
2040 bytes, not to the full 2048-byte region — the integer division in
`SEGMENT_COUNT` leaves 8 slack bytes, so the partition is not exact. -/
theorem region_partition_cex :
    DESCRIPTORS_AREA + GLOBAL_DATA_SIZE + SEGMENT_COUNT * SEG_SIZE = 2040 ∧
    DATA_SIZE = 2048 ∧
    DESCRIPTORS_AREA + GLOBAL_DATA_SIZE + SEGMENT_COUNT * SEG_SIZE ≠ DATA_SIZE := by
  decide

/-- Claim C4 (amended): the region constants (64 descriptors of 8 bytes,
8 global-state bytes, 95 segments of 16 bytes) fill the 2048-byte region up
to 8 slack bytes, fewer than one further segment would need. -/
theorem region_partition_slack :
    MAX_QUEUES * DESCRIPTOR_SIZE = 512 ∧ GLOBAL_DATA_SIZE = 8 ∧
    SEGMENT_COUNT = 95 ∧ SEG_SIZE = 16 ∧
    DESCRIPTORS_AREA + GLOBAL_DATA_SIZE + SEGMENT_COUNT * SEG_SIZE + 8 = DATA_SIZE ∧
    DATA_SIZE - (DESCRIPTORS_AREA + GLOBAL_DATA_SIZE + SEGMENT_COUNT * SEG_SIZE) < SEG_SIZE := by
  decide

-- (C3 counterexample appears below, after the trace machinery.)

/-- Claim C3 (amended): for every queue whose head segment index is the
sentinel — the Empty descriptor state reached by `create_queue` or by a
dequeue that resets the queue — `dequeue_byte` is an illegal-operation
fault and no byte is returned to the caller. -/
theorem dequeue_sentinel_faults (s : State) (qi : Nat)
    (hu : (s.descriptors qi).in_use ≠ 0)
    (hh : (s.descriptors qi).head_segment = INVALID_INDEX) :
    dequeue_byte qi s = .error .illegalOperation := by
  unfold dequeue_byte
  rw [if_neg hu, if_pos hh]

/-- Witness for the amended C3 theorem at the freshly created queue. -/
theorem dequeue_sentinel_faults_witness :
    (st0.descriptors 0).in_use ≠ 0 ∧
    (st0.descriptors 0).head_segment = INVALID_INDEX ∧
    dequeue_byte 0 st0 = .error .illegalOperation :=
  ⟨by decide, by decide, dequeue_sentinel_faults st0 0 (by decide) (by decide)⟩

/-- Claim C5 counterexample: on the never-initialized allocator state,
freeing segment 5 and then allocating does not return 5 — the lazy
initialization inside `allocate_segment` wipes the free list, the call
returns bump index 0, and the bump pointer advances from 0 to 1. -/
theorem free_then_alloc_cex :
    initState.global_data.initialized = 0 ∧
    okIdx (allocate_segment (free_segment 5 initState)) = some 0 ∧
    (0 : Nat) ≠ 5 ∧
    initState.global_data.next_unused = 0 ∧
    (okStateP (allocate_segment (free_segment 5 initState))).global_data.next_unused = 1 :=
  ⟨rfl, rfl, by decide, rfl, rfl⟩

/-- Claim C5 (amended): for every allocator state whose initialized flag is
set, and every segment index X other than the sentinel, free_segment X
followed immediately by allocate_segment returns X, and the bump pointer
does not advance. -/
theorem free_then_alloc_returns_same (s : State) (X : Nat)
    (hi : s.global_data.initialized ≠ 0) (hX : X < INVALID_INDEX) :
    ∃ s2, allocate_segment (free_segment X s) = .ok (X, s2) ∧
      s2.global_data.next_unused = s.global_data.next_unused ∧
      s2.global_data.free_list_head = s.global_data.free_list_head := by
  have hpop := alloc_pop (free_segment X s) (by simpa using hi)
    (by rw [free_segment_flh]; omega)
  rw [free_segment_flh] at hpop
  exact ⟨_, hpop, by simp, by simp⟩

/-- Witness for the amended C5 theorem on a live state. -/
theorem free_then_alloc_witness :
    liveState.global_data.initialized ≠ 0 ∧ (7 : Nat) < INVALID_INDEX ∧
    ∃ s2, allocate_segment (free_segment 7 liveState) = .ok (7, s2) ∧
      s2.global_data.next_unused = liveState.global_data.next_unused ∧
      s2.global_data.free_list_head = liveState.global_data.free_list_head :=
  ⟨by decide, by decide, free_then_alloc_returns_same liveState 7 (by decide) (by decide)⟩

/-- Claim C6: capacity exhaustion is fatal and returns nothing —
`create_queue` with all 64 descriptor slots in use, and `allocate_segment`
with an empty free list and the bump pointer at the segment-count ceiling,
are the out-of-memory fault (diagnostic plus immediate termination), so no
handle or index is ever returned on those paths. -/
theorem capacity_exhaustion_fatal :
    (∀ s : State, (∀ i, i < MAX_QUEUES → (s.descriptors i).in_use ≠ 0) →
      create_queue s = .error .outOfMemory) ∧
    (∀ s : State, s.global_data.initialized ≠ 0 →
      s.global_data.free_list_head = INVALID_INDEX →
      SEGMENT_COUNT ≤ s.global_data.next_unused →
      allocate_segment s = .error .outOfMemory) := by
  constructor
  · intro s h
    exact createFrom_all_busy s MAX_QUEUES 0 (fun j _ hj => h j (by omega))
  · intro s hi hf hn
    exact alloc_exhausted s hi hf hn

/-- Witness for C6 at an all-busy descriptor table and an exhausted pool. -/
theorem capacity_exhaustion_witness :
    (∀ i, i < MAX_QUEUES → (allBusyState.descriptors i).in_use ≠ 0) ∧
    create_queue allBusyState = .error .outOfMemory ∧
    exhaustedState.global_data.initialized ≠ 0 ∧
    exhaustedState.global_data.free_list_head = INVALID_INDEX ∧
    SEGMENT_COUNT ≤ exhaustedState.global_data.next_unused ∧
    allocate_segment exhaustedState = .error .outOfMemory :=
  ⟨fun _ _ => Nat.one_ne_zero,
   capacity_exhaustion_fatal.1 allBusyState (fun _ _ => Nat.one_ne_zero),
   Nat.one_ne_zero, rfl, le_rfl,
   capacity_exhaustion_fatal.2 exhaustedState Nat.one_ne_zero rfl le_rfl⟩

/-! ### The full-segment drain trace and the claims it settles -/

set_option maxHeartbeats 1000000 in
/-- Claim C2 counterexample: enqueue exactly 14 bytes (one full payload)
and dequeue all 14; the 14th dequeue removes the last byte the queue holds,
yet it leaves head and tail pointing at segment 1 (the eagerly allocated
empty tail segment), not at the sentinel: the queue is not in the Empty
descriptor state. -/
theorem dequeue_last_leaves_nonsentinel_cex :
    enqRun 0 l14 st0 = .ok enq14 ∧
    deqRun 0 14 enq14 = .ok (l14, deq14) ∧
    (deq14.descriptors 0).in_use ≠ 0 ∧
    (deq14.descriptors 0).head_segment = 1 ∧
    (deq14.descriptors 0).tail_segment = 1 ∧
    (1 : Nat) ≠ INVALID_INDEX := by
  refine ⟨?_, ?_, ?_, ?_, ?_, by decide⟩ <;>
  simp [deq14, enq14, st0, l14, okStateE, okStateL, okStateP, create_queue, createFrom,
    enqRun, deqRun, enqueue_byte, enqPrepare, enqWrite, dequeue_byte, deqValue,
    deqAdvance, deqReset, deqNextSeg, allocate_segment, allocAttached,
    free_segment, writeTail, linkNewTail, setQ, setSeg, initState,
    Function.update_apply, SEG_PAYLOAD_SIZE, INVALID_INDEX, SEGMENT_COUNT, MAX_QUEUES,
    DATA_SIZE, DESCRIPTORS_AREA, GLOBAL_DATA_SIZE, DESCRIPTOR_SIZE, SEG_SIZE, freshQ]

/-- Claim C2 (amended): the dequeue that removes the last byte leaves the
queue in the Empty state — segment freed onto the free list, head and tail
reset to the sentinel, both cursors 0 — provided the head and tail segments
coincide at that dequeue (the read cursor catches the write cursor inside
one shared segment).  When the last byte instead sits at the end of a full
segment, the eagerly allocated empty tail segment takes over as head and
the queue is not reset (see the counterexample). -/
theorem dequeue_last_coincident_resets (s : State) (qi : Nat)
    (hu : (s.descriptors qi).in_use ≠ 0)
    (hh : (s.descriptors qi).head_segment ≠ INVALID_INDEX)
    (hht : (s.descriptors qi).head_segment = (s.descriptors qi).tail_segment)
    (hoff : (s.descriptors qi).head_offset + 1 = (s.descriptors qi).tail_offset)
    (hlt : (s.descriptors qi).head_offset < SEG_PAYLOAD_SIZE) :
    ∃ s', dequeue_byte qi s =
        .ok ((s.segments (s.descriptors qi).head_segment).data (s.descriptors qi).head_offset, s') ∧
      (s'.descriptors qi).head_segment = INVALID_INDEX ∧
      (s'.descriptors qi).tail_segment = INVALID_INDEX ∧
      (s'.descriptors qi).head_offset = 0 ∧
      (s'.descriptors qi).tail_offset = 0 ∧
      (s'.descriptors qi).in_use = (s.descriptors qi).in_use ∧
      s'.global_data.free_list_head = (s.descriptors qi).head_segment ∧
      (s'.segments (s.descriptors qi).head_segment).next = s.global_data.free_list_head := by
  have hmod : ((s.descriptors qi).head_offset + 1) % 256 = (s.descriptors qi).tail_offset := by
    rw [seg_payload_eq] at hlt
    rw [Nat.mod_eq_of_lt (by omega), hoff]
  unfold dequeue_byte
  rw [if_neg hu, if_neg hh]
  simp only [deqAdvance, setQ_descriptors_self, hmod]
  rw [if_pos ⟨hht, trivial⟩]
  refine ⟨_, rfl, ?_, ?_, ?_, ?_, ?_, ?_, ?_⟩ <;>
    simp [deqReset, free_segment_segments_ne, hht]

/-- Witness for the amended C2 theorem: a queue holding exactly one byte in
one segment becomes Empty on dequeuing it. -/
theorem dequeue_last_coincident_witness :
    (st1.descriptors 0).in_use ≠ 0 ∧
    (st1.descriptors 0).head_segment ≠ INVALID_INDEX ∧
    (st1.descriptors 0).head_segment = (st1.descriptors 0).tail_segment ∧
    (st1.descriptors 0).head_offset + 1 = (st1.descriptors 0).tail_offset ∧
    (st1.descriptors 0).head_offset < SEG_PAYLOAD_SIZE ∧
    (∃ s', dequeue_byte 0 st1 =
        .ok ((st1.segments (st1.descriptors 0).head_segment).data (st1.descriptors 0).head_offset, s') ∧
      (s'.descriptors 0).head_segment = INVALID_INDEX ∧
      (s'.descriptors 0).tail_segment = INVALID_INDEX ∧
      (s'.descriptors 0).head_offset = 0 ∧
      (s'.descriptors 0).tail_offset = 0 ∧
      (s'.descriptors 0).in_use = (st1.descriptors 0).in_use ∧
      s'.global_data.free_list_head = (st1.descriptors 0).head_segment ∧
      (s'.segments (st1.descriptors 0).head_segment).next = st1.global_data.free_list_head) :=
  ⟨by decide, by decide, by decide, by decide, by decide,
   dequeue_last_coincident_resets st1 0 (by decide) (by decide) (by decide)
     (by decide) (by decide)⟩

set_option maxHeartbeats 1000000 in
/-- Claim C3 counterexample: after enqueuing one full segment payload (14
bytes) into a fresh queue and dequeuing all 14 of them, the queue holds
zero bytes, yet a further `dequeue_byte` returns normally instead of
faulting: the code only checks the head sentinel, and here head points at
the eagerly allocated empty tail segment. -/
theorem dequeue_zero_bytes_no_fault_cex :
    enqRun 0 l14 st0 = .ok enq14 ∧
    deqRun 0 14 enq14 = .ok (l14, deq14) ∧
    returnsOk (dequeue_byte 0 deq14) = true := by
  refine ⟨?_, ?_, ?_⟩ <;>
  simp [deq14, enq14, st0, l14, okStateE, okStateL, okStateP, create_queue, createFrom,
    enqRun, deqRun, enqueue_byte, enqPrepare, enqWrite, dequeue_byte, deqValue,
    deqAdvance, deqReset, deqNextSeg, allocate_segment, allocAttached,
    free_segment, writeTail, linkNewTail, setQ, setSeg, initState, returnsOk,
    Function.update_apply, SEG_PAYLOAD_SIZE, INVALID_INDEX, SEGMENT_COUNT, MAX_QUEUES,
    DATA_SIZE, DESCRIPTORS_AREA, GLOBAL_DATA_SIZE, DESCRIPTOR_SIZE, SEG_SIZE, freshQ]

set_option maxHeartbeats 1000000 in
/-- Claim C10: create a queue, enqueue exactly 14 bytes (a whole segment
payload, here the nonzero bytes 1..14), dequeue 14 times; the queue then
holds zero bytes while head and tail both point at segment 1 — the eagerly
allocated, never-written tail segment — with both cursors 0, and a further
`dequeue_byte` returns normally with byte 0 from that segment's payload (a
value never enqueued) instead of the illegal-operation fault. -/
theorem phantom_dequeue_after_full_segment_drain :
    enqRun 0 l14 st0 = .ok enq14 ∧
    deqRun 0 14 enq14 = .ok (l14, deq14) ∧
    (deq14.descriptors 0).head_segment = 1 ∧
    (deq14.descriptors 0).tail_segment = 1 ∧
    (1 : Nat) ≠ INVALID_INDEX ∧
    (deq14.descriptors 0).head_offset = 0 ∧
    (deq14.descriptors 0).tail_offset = 0 ∧
    (deq14.segments 1).data 0 = 0 ∧
    (0 : Nat) ∉ l14 ∧
    (dequeue_byte 0 deq14).map Prod.fst = .ok 0 := by
  refine ⟨?_, ?_, ?_, ?_, by decide, ?_, ?_, ?_, by decide, ?_⟩ <;>
  simp [deq14, enq14, st0, l14, okStateE, okStateL, okStateP, create_queue, createFrom,
    enqRun, deqRun, enqueue_byte, enqPrepare, enqWrite, dequeue_byte, deqValue,
    deqAdvance, deqReset, deqNextSeg, allocate_segment, allocAttached,
    free_segment, writeTail, linkNewTail, setQ, setSeg, initState, Except.map,
    Function.update_apply, SEG_PAYLOAD_SIZE, INVALID_INDEX, SEGMENT_COUNT, MAX_QUEUES,
    DATA_SIZE, DESCRIPTORS_AREA, GLOBAL_DATA_SIZE, DESCRIPTOR_SIZE, SEG_SIZE, freshQ]

/-! ### Claim C8: create_queue claims the lowest free slot -/

theorem createFrom_finds (s : State) :
    ∀ fuel i, (∃ j, i ≤ j ∧ j < i + fuel ∧ (s.descriptors j).in_use = 0) →
      ∃ i0, createFrom s i fuel = .ok (i0, setQ s i0 freshQ) ∧
        i ≤ i0 ∧ i0 < i + fuel ∧ (s.descriptors i0).in_use = 0 ∧
        ∀ j, i ≤ j → j < i0 → (s.descriptors j).in_use ≠ 0
  | 0, i, h => by
    obtain ⟨j, h1, h2, _⟩ := h
    exact absurd h2 (by omega)
  | fuel + 1, i, h => by
    by_cases hc : (s.descriptors i).in_use = 0
    · refine ⟨i, ?_, le_rfl, by omega, hc, fun j h1 h2 => absurd (h1.trans_lt h2) (lt_irrefl i)⟩
      unfold createFrom
      rw [if_pos hc]
    · obtain ⟨j, hj1, hj2, hj3⟩ := h
      have hij : i ≠ j := fun he => hc (he ▸ hj3)
      obtain ⟨i0, he, h1, h2, h3, h4⟩ :=
        createFrom_finds s fuel (i + 1) ⟨j, by omega, by omega, hj3⟩
      refine ⟨i0, ?_, by omega, by omega, h3, ?_⟩
      · unfold createFrom
        rw [if_neg hc]
        exact he
      · intro j' hj'1 hj'2
        rcases Nat.eq_or_lt_of_le hj'1 with hq | hq
        · exact hq ▸ hc
        · exact h4 j' hq hj'2

/-- Claim C8: whenever some descriptor slot is free, `create_queue` returns
the lowest-indexed free slot, with that slot set to in_use = 1, head and
tail at the sentinel and both cursors 0, and every other descriptor slot,
the global state and the segment pool unchanged. -/
theorem create_returns_lowest_free (s : State)
    (hfree : ∃ i, i < MAX_QUEUES ∧ (s.descriptors i).in_use = 0) :
    ∃ i0 s', create_queue s = .ok (i0, s') ∧
      i0 < MAX_QUEUES ∧ (s.descriptors i0).in_use = 0 ∧
      (∀ j, j < i0 → (s.descriptors j).in_use ≠ 0) ∧
      (s'.descriptors i0).in_use = 1 ∧
      (s'.descriptors i0).head_segment = INVALID_INDEX ∧
      (s'.descriptors i0).tail_segment = INVALID_INDEX ∧
      (s'.descriptors i0).head_offset = 0 ∧
      (s'.descriptors i0).tail_offset = 0 ∧
      (∀ j, j ≠ i0 → s'.descriptors j = s.descriptors j) ∧
      s'.global_data = s.global_data ∧
      s'.segments = s.segments := by
  obtain ⟨i, hi, hfree⟩ := hfree
  obtain ⟨i0, he, _, h2, h3, h4⟩ :=
    createFrom_finds s MAX_QUEUES 0 ⟨i, Nat.zero_le i, by omega, hfree⟩
  refine ⟨i0, setQ s i0 freshQ, he, by omega, h3,
    fun j hj => h4 j (Nat.zero_le j) hj, ?_, ?_, ?_, ?_, ?_,
    fun j hj => setQ_descriptors_ne s i0 j freshQ hj, rfl, rfl⟩ <;> simp [freshQ]

/-- Witness for C8 on a state whose slot 0 is busy and slot 1 free: the
scan skips slot 0 and claims slot 1. -/
theorem create_returns_lowest_free_witness :
    (∃ i, i < MAX_QUEUES ∧ (st0.descriptors i).in_use = 0) ∧
    (∃ i0 s', create_queue st0 = .ok (i0, s') ∧
      i0 < MAX_QUEUES ∧ (st0.descriptors i0).in_use = 0 ∧
      (∀ j, j < i0 → (st0.descriptors j).in_use ≠ 0) ∧
      (s'.descriptors i0).in_use = 1 ∧
      (s'.descriptors i0).head_segment = INVALID_INDEX ∧
      (s'.descriptors i0).tail_segment = INVALID_INDEX ∧
      (s'.descriptors i0).head_offset = 0 ∧
      (s'.descriptors i0).tail_offset = 0 ∧
      (∀ j, j ≠ i0 → s'.descriptors j = st0.descriptors j) ∧
      s'.global_data = st0.global_data ∧
      s'.segments = st0.segments) :=
  ⟨⟨1, by decide, by decide⟩,
   create_returns_lowest_free st0 ⟨1, by decide, by decide⟩⟩

/-! ### Claim C7: destroy_queue returns the whole chain to the free list -/

theorem isChain_congr {s s' : State} :
    ∀ (ys : List Nat), (∀ y ∈ ys, (s'.segments y).next = (s.segments y).next) →
      ∀ start, isChain s start ys → isChain s' start ys
  | [], _, start, hch => hch
  | y :: ys, h, start, hch => by
    obtain ⟨h1, h2, h3⟩ := hch
    refine ⟨h1, h2, ?_⟩
    rw [h y (List.mem_cons_self y ys)]
    exact isChain_congr ys (fun z hz => h z (List.mem_cons_of_mem y hz)) _ h3

theorem freeChain_sentinel (fuel : Nat) (s : State) :
    freeChain fuel INVALID_INDEX s = s := by
  cases fuel <;> simp [freeChain]

theorem freeChain_spec :
    ∀ (cs : List Nat) (fuel idx : Nat) (s : State) (F : List Nat),
      isChain s idx cs → cs.Nodup →
      isChain s s.global_data.free_list_head F →
      (∀ x ∈ cs, x ∉ F) →
      cs.length ≤ fuel →
      isChain (freeChain fuel idx s)
          (freeChain fuel idx s).global_data.free_list_head (cs.reverse ++ F) ∧
        (∀ i, i ∉ cs → (freeChain fuel idx s).segments i = s.segments i) ∧
        (∀ i, ((freeChain fuel idx s).segments i).data = (s.segments i).data) ∧
        (freeChain fuel idx s).descriptors = s.descriptors ∧
        (freeChain fuel idx s).global_data.next_unused = s.global_data.next_unused ∧
        (freeChain fuel idx s).global_data.initialized = s.global_data.initialized
  | [], fuel, idx, s, F, hch, _, hF, _, _ => by
    have hidx : idx = INVALID_INDEX := hch
    subst hidx
    rw [freeChain_sentinel]
    exact ⟨hF, fun _ _ => rfl, fun _ => rfl, rfl, rfl, rfl⟩
  | x :: xs, fuel, idx, s, F, hch, hnd, hF, hdisj, hlen => by
    obtain ⟨rfl, hxv, hch'⟩ := hch
    obtain ⟨fuel, rfl⟩ : ∃ f, fuel = f + 1 := by
      cases fuel
      · exact absurd hlen (by simp)
      · exact ⟨_, rfl⟩
    have hstep : freeChain (fuel + 1) idx s =
        freeChain fuel (s.segments idx).next (free_segment idx s) := by
      rw [show freeChain (fuel + 1) idx s =
        if idx = INVALID_INDEX then s
        else freeChain fuel (s.segments idx).next (free_segment idx s) from rfl]
      rw [if_neg hxv]
    have hxs : idx ∉ xs := (List.nodup_cons.mp hnd).1
    have hnd' : xs.Nodup := (List.nodup_cons.mp hnd).2
    have hxF : idx ∉ F := hdisj idx (List.mem_cons_self idx xs)
    have hch1 : isChain (free_segment idx s) (s.segments idx).next xs :=
      isChain_congr xs
        (fun y hy => by rw [free_segment_segments_ne idx y s (fun he => hxs (he ▸ hy))])
        _ hch'
    have hF1 : isChain (free_segment idx s)
        (free_segment idx s).global_data.free_list_head (idx :: F) := by
      refine ⟨free_segment_flh idx s, hxv, ?_⟩
      rw [free_segment_segments_self]
      exact isChain_congr F
        (fun y hy => by rw [free_segment_segments_ne idx y s (fun he => hxF (he ▸ hy))])
        _ hF
    have hdisj1 : ∀ y ∈ xs, y ∉ idx :: F := by
      intro y hy hmem
      rcases List.mem_cons.mp hmem with he | hmem
      · exact hxs (he ▸ hy)
      · exact hdisj y (List.mem_cons_of_mem idx hy) hmem
    obtain ⟨g1, g2, g3, g4, g5, g6⟩ :=
      freeChain_spec xs fuel (s.segments idx).next (free_segment idx s) (idx :: F)
        hch1 hnd' hF1 hdisj1 (by simp only [List.length_cons] at hlen; omega)
    rw [hstep]
    refine ⟨?_, ?_, ?_, ?_, ?_, ?_⟩
    · simpa [List.append_assoc] using g1
    · intro i hi
      rw [g2 i (fun hmem => hi (List.mem_cons_of_mem idx hmem))]
      exact free_segment_segments_ne idx i s (fun he => hi (he ▸ List.mem_cons_self idx xs))
    · intro i
      rw [g3 i, free_segment_data]
    · rw [g4]
      rfl
    · rw [g5]
      rfl
    · rw [g6]
      rfl

/-- Claim C7: on a valid in_use handle whose segment chain is the list cs
(well formed: next-linked, sentinel-terminated, no duplicates, within pool
capacity) and whose free list is F disjoint from cs, `destroy_queue` pushes
exactly the cs segments onto the free list — the new free list is
cs.reverse ++ F, of length |cs| + |F| — then clears in_use; the
descriptor's other fields, all other descriptors, all segments outside cs
and all payload bytes are unchanged, so the slot is reusable. -/
theorem destroy_reclaims_chain (s : State) (qi : Nat) (cs F : List Nat)
    (hqi : qi < MAX_QUEUES)
    (hu : (s.descriptors qi).in_use ≠ 0)
    (hchain : isChain s (s.descriptors qi).head_segment cs)
    (hnodup : cs.Nodup)
    (hlen : cs.length ≤ SEGMENT_COUNT)
    (hF : isChain s s.global_data.free_list_head F)
    (hdisj : ∀ x ∈ cs, x ∉ F) :
    ∃ s', destroy_queue qi s = .ok s' ∧
      isChain s' s'.global_data.free_list_head (cs.reverse ++ F) ∧
      (cs.reverse ++ F).length = cs.length + F.length ∧
      (s'.descriptors qi).in_use = 0 ∧
      (s'.descriptors qi).head_segment = (s.descriptors qi).head_segment ∧
      (s'.descriptors qi).tail_segment = (s.descriptors qi).tail_segment ∧
      (∀ j, j ≠ qi → s'.descriptors j = s.descriptors j) ∧
      (∀ i, i ∉ cs → s'.segments i = s.segments i) ∧
      (∀ i, (s'.segments i).data = (s.segments i).data) ∧
      s'.global_data.next_unused = s.global_data.next_unused := by
  obtain ⟨g1, g2, g3, g4, g5, g6⟩ :=
    freeChain_spec cs SEGMENT_COUNT (s.descriptors qi).head_segment s F
      hchain hnodup hF hdisj hlen
  have hd : destroy_queue qi s = .ok (setQ
      (freeChain SEGMENT_COUNT (s.descriptors qi).head_segment s) qi
      { (freeChain SEGMENT_COUNT (s.descriptors qi).head_segment s).descriptors qi
        with in_use := 0 }) := by
    unfold destroy_queue
    rw [if_neg (by omega), if_neg hu]
  refine ⟨_, hd, ?_, by simp, by simp, ?_, ?_, ?_, ?_, ?_, ?_⟩
  · refine isChain_congr _ ?_ _ g1
    intro y hy
    rfl
  · rw [g4]
    simp
  · rw [g4]
    simp
  · intro j hj
    rw [setQ_descriptors_ne _ _ _ _ hj, g4]
  · intro i hi
    rw [setQ_segments]
    exact g2 i hi
  · intro i
    rw [setQ_segments]
    exact g3 i
  · rw [setQ_global]
    exact g5

/-- Witness for C7 on a queue whose chain is the two segments 0 → 1 with an
empty free list. -/
theorem destroy_reclaims_chain_witness :
    (0 < MAX_QUEUES ∧ (chainState.descriptors 0).in_use ≠ 0 ∧
      isChain chainState (chainState.descriptors 0).head_segment [0, 1] ∧
      ([0, 1] : List Nat).Nodup ∧ ([0, 1] : List Nat).length ≤ SEGMENT_COUNT ∧
      isChain chainState chainState.global_data.free_list_head [] ∧
      (∀ x ∈ ([0, 1] : List Nat), x ∉ ([] : List Nat))) ∧
    (∃ s', destroy_queue 0 chainState = .ok s' ∧
      isChain s' s'.global_data.free_list_head (([0, 1] : List Nat).reverse ++ []) ∧
      (([0, 1] : List Nat).reverse ++ ([] : List Nat)).length =
        ([0, 1] : List Nat).length + ([] : List Nat).length ∧
      (s'.descriptors 0).in_use = 0 ∧
      (s'.descriptors 0).head_segment = (chainState.descriptors 0).head_segment ∧
      (s'.descriptors 0).tail_segment = (chainState.descriptors 0).tail_segment ∧
      (∀ j, j ≠ 0 → s'.descriptors j = chainState.descriptors j) ∧
      (∀ i, i ∉ ([0, 1] : List Nat) → s'.segments i = chainState.segments i) ∧
      (∀ i, (s'.segments i).data = (chainState.segments i).data) ∧
      s'.global_data.next_unused = chainState.global_data.next_unused) :=
  ⟨⟨by decide, by decide, by decide, by decide, by decide, by decide,
    fun x _ h => List.not_mem_nil x h⟩,
   destroy_reclaims_chain chainState 0 [0, 1] [] (by decide) (by decide) (by decide)
     (by decide) (by decide) (by decide) (fun x _ h => List.not_mem_nil x h)⟩

/-! ### Destructors and frame lemmas for the operation stages -/

theorem alloc_ok_descriptors {s : State} {ns : Nat} {s1 : State}
    (h : allocate_segment s = .ok (ns, s1)) :
    s1.descriptors = s.descriptors ∧ s1.segments = s.segments := by
  by_cases hi : s.global_data.initialized = 0
  · rw [alloc_uninit s hi] at h
    cases h
    exact ⟨rfl, rfl⟩
  · by_cases hf : s.global_data.free_list_head = INVALID_INDEX
    · by_cases hn : s.global_data.next_unused < SEGMENT_COUNT
      · rw [alloc_bump s hi hf hn] at h
        cases h
        exact ⟨rfl, rfl⟩
      · rw [alloc_exhausted s hi hf (by omega)] at h
        cases h
    · rw [alloc_pop s hi hf] at h
      cases h
      exact ⟨rfl, rfl⟩

theorem allocAttached_ok {s : State} {ns : Nat} {s1 : State}
    (h : allocAttached s = .ok (ns, s1)) :
    ∃ sa, allocate_segment s = .ok (ns, sa) ∧
      s1 = setSeg sa ns { sa.segments ns with next := INVALID_INDEX } := by
  unfold allocAttached at h
  split at h
  · cases h
  · rename_i ns' sa heq
    cases h
    exact ⟨sa, heq, rfl⟩

theorem enqPrepare_ok_cases {qi : Nat} {s0 sp : State}
    (h : enqPrepare qi s0 = .ok sp) :
    ((s0.descriptors qi).tail_segment ≠ INVALID_INDEX ∧ sp = s0) ∨
    ((s0.descriptors qi).tail_segment = INVALID_INDEX ∧
      ∃ ns s1, allocAttached s0 = .ok (ns, s1) ∧
        sp = setQ s1 qi { s1.descriptors qi with
                          head_segment := ns, tail_segment := ns,
                          head_offset := 0, tail_offset := 0 }) := by
  unfold enqPrepare at h
  split at h
  · rename_i ht
    split at h
    · cases h
    · rename_i ns s1 heq
      cases h
      exact .inr ⟨ht, ns, s1, heq, rfl⟩
  · rename_i ht
    cases h
    exact .inl ⟨ht, rfl⟩

theorem enqWrite_ok_cases {qi b : Nat} {s sp : State}
    (h : enqWrite qi b s = .ok sp) :
    (((writeTail qi b s).descriptors qi).tail_offset ≠ SEG_PAYLOAD_SIZE ∧
      sp = writeTail qi b s) ∨
    (((writeTail qi b s).descriptors qi).tail_offset = SEG_PAYLOAD_SIZE ∧
      ∃ ns s3, allocAttached (writeTail qi b s) = .ok (ns, s3) ∧
        sp = linkNewTail qi ns s3) := by
  unfold enqWrite at h
  split at h
  · rename_i ht
    split at h
    · cases h
    · rename_i ns s3 heq
      cases h
      exact .inr ⟨ht, ns, s3, heq, rfl⟩
  · rename_i ht
    cases h
    exact .inl ⟨ht, rfl⟩

theorem enqueue_ok_destruct {qi b : Nat} {s0 s' : State}
    (h : enqueue_byte qi b s0 = .ok s') :
    (s0.descriptors qi).in_use ≠ 0 ∧
    ∃ sp, enqPrepare qi s0 = .ok sp ∧ enqWrite qi b sp = .ok s' := by
  unfold enqueue_byte at h
  split at h
  · cases h
  · rename_i hu
    split at h
    · cases h
    · rename_i sp heq
      exact ⟨hu, sp, heq, h⟩

theorem dequeue_ok_destruct {qi : Nat} {s : State} {v : Nat} {s' : State}
    (h : dequeue_byte qi s = .ok (v, s')) :
    (s.descriptors qi).in_use ≠ 0 ∧
    (s.descriptors qi).head_segment ≠ INVALID_INDEX ∧
    v = deqValue qi s ∧
    ((((deqAdvance qi s).descriptors qi).head_segment =
          ((deqAdvance qi s).descriptors qi).tail_segment ∧
        ((deqAdvance qi s).descriptors qi).head_offset =
          ((deqAdvance qi s).descriptors qi).tail_offset ∧
        s' = deqReset qi (free_segment ((deqAdvance qi s).descriptors qi).head_segment
          (deqAdvance qi s))) ∨
      (¬(((deqAdvance qi s).descriptors qi).head_segment =
            ((deqAdvance qi s).descriptors qi).tail_segment ∧
          ((deqAdvance qi s).descriptors qi).head_offset =
            ((deqAdvance qi s).descriptors qi).tail_offset) ∧
        ((deqAdvance qi s).descriptors qi).head_offset = SEG_PAYLOAD_SIZE ∧
        s' = free_segment ((deqAdvance qi s).descriptors qi).head_segment
          (deqNextSeg qi (deqAdvance qi s))) ∨
      (¬(((deqAdvance qi s).descriptors qi).head_segment =
            ((deqAdvance qi s).descriptors qi).tail_segment ∧
          ((deqAdvance qi s).descriptors qi).head_offset =
            ((deqAdvance qi s).descriptors qi).tail_offset) ∧
        ((deqAdvance qi s).descriptors qi).head_offset ≠ SEG_PAYLOAD_SIZE ∧
        s' = deqAdvance qi s)) := by
  unfold dequeue_byte at h
  split at h
  · cases h
  · rename_i hu
    split at h
    · cases h
    · rename_i hh
      split at h
      · rename_i hc
        cases h
        exact ⟨hu, hh, rfl, .inl ⟨hc.1, hc.2, rfl⟩⟩
      · rename_i hc
        split at h
        · rename_i hoff
          cases h
          exact ⟨hu, hh, rfl, .inr (.inl ⟨hc, hoff, rfl⟩)⟩
        · rename_i hoff
          cases h
          exact ⟨hu, hh, rfl, .inr (.inr ⟨hc, hoff, rfl⟩)⟩

theorem writeTail_desc_self (qi b : Nat) (s : State) :
    (writeTail qi b s).descriptors qi =
      { s.descriptors qi with tail_offset := ((s.descriptors qi).tail_offset + 1) % 256 } := by
  simp [writeTail]

theorem writeTail_desc_ne (qi b j : Nat) (s : State) (hj : j ≠ qi) :
    (writeTail qi b s).descriptors j = s.descriptors j := by
  simp [writeTail, setQ_descriptors_ne _ _ _ _ hj]

theorem writeTail_global (qi b : Nat) (s : State) :
    (writeTail qi b s).global_data = s.global_data := rfl

theorem linkNewTail_desc_self (qi ns : Nat) (s : State) :
    (linkNewTail qi ns s).descriptors qi =
      { s.descriptors qi with tail_segment := ns, tail_offset := 0 } := by
  simp [linkNewTail]

theorem linkNewTail_desc_ne (qi ns j : Nat) (s : State) (hj : j ≠ qi) :
    (linkNewTail qi ns s).descriptors j = s.descriptors j := by
  simp [linkNewTail, setQ_descriptors_ne _ _ _ _ hj]

theorem linkNewTail_global (qi ns : Nat) (s : State) :
    (linkNewTail qi ns s).global_data = s.global_data := rfl

theorem deqAdvance_desc_self (qi : Nat) (s : State) :
    (deqAdvance qi s).descriptors qi =
      { s.descriptors qi with head_offset := ((s.descriptors qi).head_offset + 1) % 256 } := by
  simp [deqAdvance]

theorem deqAdvance_desc_ne (qi j : Nat) (s : State) (hj : j ≠ qi) :
    (deqAdvance qi s).descriptors j = s.descriptors j := by
  simp [deqAdvance, setQ_descriptors_ne _ _ _ _ hj]

theorem deqReset_desc_self (qi : Nat) (s : State) :
    (deqReset qi s).descriptors qi =
      { s.descriptors qi with head_segment := INVALID_INDEX, tail_segment := INVALID_INDEX,
                              head_offset := 0, tail_offset := 0 } := by
  simp [deqReset]

theorem deqReset_desc_ne (qi j : Nat) (s : State) (hj : j ≠ qi) :
    (deqReset qi s).descriptors j = s.descriptors j := by
  simp [deqReset, setQ_descriptors_ne _ _ _ _ hj]

theorem deqNextSeg_desc_self (qi : Nat) (s : State) :
    (deqNextSeg qi s).descriptors qi =
      { s.descriptors qi with
        head_segment := (s.segments (s.descriptors qi).head_segment).next,
        head_offset := 0 } := by
  simp [deqNextSeg]

theorem deqNextSeg_desc_ne (qi j : Nat) (s : State) (hj : j ≠ qi) :
    (deqNextSeg qi s).descriptors j = s.descriptors j := by
  simp [deqNextSeg, setQ_descriptors_ne _ _ _ _ hj]

theorem createFrom_ok_shape (s : State) :
    ∀ fuel i i0 s', createFrom s i fuel = .ok (i0, s') → s' = setQ s i0 freshQ
  | 0, i, i0, s', h => by cases h
  | fuel + 1, i, i0, s', h => by
    unfold createFrom at h
    split at h
    · cases h
      rfl
    · exact createFrom_ok_shape s fuel (i + 1) i0 s' h

theorem freeChain_descriptors :
    ∀ (fuel idx : Nat) (s : State), (freeChain fuel idx s).descriptors = s.descriptors
  | 0, _, _ => rfl
  | fuel + 1, idx, s => by
    rw [show freeChain (fuel + 1) idx s =
      if idx = INVALID_INDEX then s
      else freeChain fuel (s.segments idx).next (free_segment idx s) from rfl]
    split
    · rfl
    · rw [freeChain_descriptors fuel _ _]
      rfl

theorem destroy_ok_shape {qi : Nat} {s s' : State} (h : destroy_queue qi s = .ok s') :
    qi < MAX_QUEUES ∧ (s.descriptors qi).in_use ≠ 0 ∧
    s' = setQ (freeChain SEGMENT_COUNT (s.descriptors qi).head_segment s) qi
      { (freeChain SEGMENT_COUNT (s.descriptors qi).head_segment s).descriptors qi
        with in_use := 0 } := by
  unfold destroy_queue at h
  split at h
  · cases h
  · rename_i h1
    split at h
    · cases h
    · rename_i h2
      cases h
      exact ⟨by omega, h2, rfl⟩

theorem enqueue_preserves_offsets {qi b : Nat} {s s' : State}
    (h : enqueue_byte qi b s = .ok s') (hOk : OffsetsOk s) : OffsetsOk s' := by
  obtain ⟨hu, sp, hprep, hwrite⟩ := enqueue_ok_destruct h
  have hsp : ((sp.descriptors qi).head_offset < SEG_PAYLOAD_SIZE ∧
      (sp.descriptors qi).tail_offset < SEG_PAYLOAD_SIZE) ∧
      ∀ j, j ≠ qi → sp.descriptors j = s.descriptors j := by
    rcases enqPrepare_ok_cases hprep with ⟨_, rfl⟩ | ⟨_, ns, s1, ha, rfl⟩
    · exact ⟨hOk qi hu, fun j _ => rfl⟩
    · have hd1 : s1.descriptors = s.descriptors := by
        obtain ⟨sa, haa, rfl⟩ := allocAttached_ok ha
        rw [setSeg_descriptors, (alloc_ok_descriptors haa).1]
      refine ⟨by simp [seg_payload_eq], fun j hj => ?_⟩
      rw [setQ_descriptors_ne _ _ _ _ hj, hd1]
  obtain ⟨⟨hho, hto⟩, hother⟩ := hsp
  have hmod : ((sp.descriptors qi).tail_offset + 1) % 256 = (sp.descriptors qi).tail_offset + 1 :=
    Nat.mod_eq_of_lt (by rw [seg_payload_eq] at hto; omega)
  rcases enqWrite_ok_cases hwrite with ⟨hnoroll, rfl⟩ | ⟨hroll, ns, s3, ha3, rfl⟩
  · rw [writeTail_desc_self, hmod] at hnoroll
    simp only [seg_payload_eq] at hnoroll
    simp at hnoroll
    intro qj hq
    by_cases hj : qj = qi
    · subst hj
      rw [writeTail_desc_self, hmod]
      refine ⟨by simpa using hho, ?_⟩
      simp only [seg_payload_eq] at hto ⊢
      simpa using by omega
    · rw [writeTail_desc_ne _ _ _ _ hj, hother qj hj] at hq ⊢
      exact hOk qj hq
  · have hd3 : s3.descriptors = (writeTail qi b sp).descriptors := by
      obtain ⟨sa, haa, rfl⟩ := allocAttached_ok ha3
      rw [setSeg_descriptors, (alloc_ok_descriptors haa).1]
    have hs3ho : (s3.descriptors qi).head_offset = (sp.descriptors qi).head_offset := by
      rw [hd3, writeTail_desc_self]
    intro qj hq
    by_cases hj : qj = qi
    · subst hj
      rw [linkNewTail_desc_self]
      refine ⟨?_, by simp [seg_payload_eq]⟩
      simpa [hs3ho] using hho
    · rw [linkNewTail_desc_ne _ _ _ _ hj, hd3, writeTail_desc_ne _ _ _ _ hj,
        hother qj hj] at hq ⊢
      exact hOk qj hq

theorem dequeue_preserves_offsets {qi : Nat} {s : State} {v : Nat} {s' : State}
    (h : dequeue_byte qi s = .ok (v, s')) (hOk : OffsetsOk s) : OffsetsOk s' := by
  obtain ⟨hu, hh, hv, hcases⟩ := dequeue_ok_destruct h
  obtain ⟨hho, hto⟩ := hOk qi hu
  have hmod : ((s.descriptors qi).head_offset + 1) % 256 = (s.descriptors qi).head_offset + 1 :=
    Nat.mod_eq_of_lt (by rw [seg_payload_eq] at hho; omega)
  rcases hcases with ⟨_, _, rfl⟩ | ⟨_, hoff, rfl⟩ | ⟨_, hoff, rfl⟩
  · intro qj hq
    by_cases hj : qj = qi
    · subst hj
      rw [deqReset_desc_self]
      exact ⟨by simp [seg_payload_eq], by simp [seg_payload_eq]⟩
    · rw [deqReset_desc_ne _ _ _ hj, free_segment_descriptors,
        deqAdvance_desc_ne _ _ _ hj] at hq ⊢
      exact hOk qj hq
  · intro qj hq
    by_cases hj : qj = qi
    · subst hj
      rw [free_segment_descriptors, deqNextSeg_desc_self, deqAdvance_desc_self]
      refine ⟨by simp [seg_payload_eq], ?_⟩
      simpa using hto
    · rw [free_segment_descriptors, deqNextSeg_desc_ne _ _ _ hj,
        deqAdvance_desc_ne _ _ _ hj] at hq ⊢
      exact hOk qj hq
  · rw [deqAdvance_desc_self, hmod] at hoff
    simp only [seg_payload_eq] at hoff
    simp at hoff
    intro qj hq
    by_cases hj : qj = qi
    · subst hj
      rw [deqAdvance_desc_self, hmod]
      refine ⟨?_, by simpa using hto⟩
      simp only [seg_payload_eq] at hho ⊢
      simpa using by omega
    · rw [deqAdvance_desc_ne _ _ _ hj] at hq ⊢
      exact hOk qj hq

theorem create_preserves_offsets {s : State} {i : Nat} {s' : State}
    (h : create_queue s = .ok (i, s')) (hOk : OffsetsOk s) : OffsetsOk s' := by
  have hshape := createFrom_ok_shape s MAX_QUEUES 0 i s' h
  subst hshape
  intro qj hq
  by_cases hj : qj = i
  · subst hj
    rw [setQ_descriptors_self]
    exact ⟨by simp [freshQ, seg_payload_eq], by simp [freshQ, seg_payload_eq]⟩
  · rw [setQ_descriptors_ne _ _ _ _ hj] at hq ⊢
    exact hOk qj hq

theorem destroy_preserves_offsets {qi : Nat} {s s' : State}
    (h : destroy_queue qi s = .ok s') (hOk : OffsetsOk s) : OffsetsOk s' := by
  obtain ⟨_, _, hshape⟩ := destroy_ok_shape h
  subst hshape
  intro qj hq
  by_cases hj : qj = qi
  · subst hj
    rw [setQ_descriptors_self] at hq
    simp at hq
  · rw [setQ_descriptors_ne _ _ _ _ hj, freeChain_descriptors] at hq ⊢
    exact hOk qj hq

/-! ### Claim C9: cursor bounds in all reachable states -/

/-- Claim C9: in every state reachable through the public operations, every
in_use descriptor keeps both cursors strictly below the 14-byte payload
capacity — each operation that brings a cursor to the capacity immediately
resets it to 0 — so every payload read and write in `enqueue_byte` and
`dequeue_byte` indexes inside the 14-byte segment payload. -/
theorem reachable_cursor_bounds (s : State) (h : Reachable s) : OffsetsOk s := by
  induction h with
  | init => exact fun qi hq => absurd rfl hq
  | create _ he ih => exact create_preserves_offsets he ih
  | destroy _ he ih => exact destroy_preserves_offsets he ih
  | enq _ he ih => exact enqueue_preserves_offsets he ih
  | deq _ he ih => exact dequeue_preserves_offsets he ih

/-- Witness for C9 at the reachable state after one create and one
enqueue. -/
theorem reachable_cursor_bounds_witness : Reachable st1 ∧ OffsetsOk st1 :=
  have h1 : create_queue initState = .ok (0, st0) := rfl
  have h2 : enqueue_byte 0 9 st0 = .ok st1 := rfl
  have hr : Reachable st1 := Reachable.enq (Reachable.create Reachable.init h1) h2
  ⟨hr, reachable_cursor_bounds st1 hr⟩

/-! ### Claim C1: the FIFO property -/

theorem writeTail_next (qi b j : Nat) (s : State) :
    ((writeTail qi b s).segments j).next = (s.segments j).next := by
  by_cases hj : j = (s.descriptors qi).tail_segment
  · subst hj
    simp [writeTail]
  · simp [writeTail, setSeg_segments_ne _ _ _ _ hj]

theorem writeTail_data_self (qi b : Nat) (s : State) :
    ((writeTail qi b s).segments (s.descriptors qi).tail_segment).data =
      Function.update ((s.segments (s.descriptors qi).tail_segment).data)
        ((s.descriptors qi).tail_offset) b := by
  simp [writeTail]

theorem writeTail_seg_ne (qi b j : Nat) (s : State)
    (hj : j ≠ (s.descriptors qi).tail_segment) :
    (writeTail qi b s).segments j = s.segments j := by
  simp [writeTail, setSeg_segments_ne _ _ _ _ hj]

theorem linkNewTail_seg_self (qi ns : Nat) (s : State) :
    (linkNewTail qi ns s).segments (s.descriptors qi).tail_segment =
      { s.segments (s.descriptors qi).tail_segment with next := ns } := by
  simp [linkNewTail]

theorem linkNewTail_seg_ne (qi ns j : Nat) (s : State)
    (hj : j ≠ (s.descriptors qi).tail_segment) :
    (linkNewTail qi ns s).segments j = s.segments j := by
  simp [linkNewTail, setSeg_segments_ne _ _ _ _ hj]

theorem deqAdvance_segments (qi : Nat) (s : State) :
    (deqAdvance qi s).segments = s.segments := rfl

theorem deqAdvance_global (qi : Nat) (s : State) :
    (deqAdvance qi s).global_data = s.global_data := rfl

theorem deqReset_segments (qi : Nat) (s : State) :
    (deqReset qi s).segments = s.segments := rfl

theorem deqNextSeg_segments (qi : Nat) (s : State) :
    (deqNextSeg qi s).segments = s.segments := rfl

theorem get_append_left {L : List Nat} {b j : Nat} (h : j < L.length)
    (h2 : j < (L ++ [b]).length) : (L ++ [b]).get ⟨j, h2⟩ = L.get ⟨j, h⟩ :=
  List.get_append j h

theorem get_append_last {L : List Nat} {b : Nat}
    (h : L.length < (L ++ [b]).length) : (L ++ [b]).get ⟨L.length, h⟩ = b := by
  simp

/-- A chain that continues past an occurrence of `y` is itself a chain
starting at `y`. -/
theorem isChain_append_right {s : State} {y : Nat} {l2 : List Nat} :
    ∀ (l1 : List Nat) (start : Nat), isChain s start (l1 ++ y :: l2) →
      isChain s y (y :: l2)
  | [], start, h => h.1 ▸ h
  | x :: l1, _, h => isChain_append_right l1 (s.segments x).next h.2.2

theorem isChain_unique {s : State} :
    ∀ (l l' : List Nat) (start : Nat), isChain s start l → isChain s start l' → l = l'
  | [], [], _, _, _ => rfl
  | [], x' :: l', _, h, h' => absurd (h'.1.symm.trans h) h'.2.1
  | x :: l, [], _, h, h' => absurd (h.1.symm.trans h') h.2.1
  | x :: l, x' :: l', start, h, h' => by
    obtain ⟨rfl, -, hl⟩ := h
    obtain ⟨rfl, -, hl'⟩ := h'
    rw [isChain_unique l l' _ hl hl']

theorem isChain_nodup {s : State} :
    ∀ (F : List Nat) (start : Nat), isChain s start F → F.Nodup
  | [], _, _ => List.nodup_nil
  | x :: xs, start, h => by
    obtain ⟨rfl, hxv, hxs⟩ := h
    refine List.nodup_cons.mpr ⟨?_, isChain_nodup xs _ hxs⟩
    intro hmem
    obtain ⟨l1, l2, rfl⟩ := List.append_of_mem hmem
    have h1 : isChain s start (start :: (l1 ++ start :: l2)) := ⟨rfl, hxv, hxs⟩
    have h2 : isChain s start (start :: l2) :=
      isChain_append_right (start :: l1) start h1
    have h3 := isChain_unique _ _ _ h1 h2
    have hlen := congrArg List.length h3
    simp at hlen
    omega

theorem getD_mem {C : List Nat} {i : Nat} (h : i < C.length) : C.getD i 0 ∈ C := by
  rw [List.getD_eq_get C 0 h]
  first
  | exact List.get_mem C _ _
  | exact List.get_mem C _

theorem getD_append_lt (C : List Nat) (x d i : Nat) (h : i < C.length) :
    (C ++ [x]).getD i d = C.getD i d := by
  rw [List.getD_eq_get C d h, List.getD_eq_get (C ++ [x]) d (by simp; omega)]
  exact get_append_left h _

theorem getD_append_len (C : List Nat) (x d : Nat) :
    (C ++ [x]).getD C.length d = x := by
  rw [List.getD_eq_get (C ++ [x]) d (by simp)]
  exact get_append_last _

theorem nodup_getD_inj {C : List Nat} (h : C.Nodup) {i j : Nat}
    (hi : i < C.length) (hj : j < C.length) (he : C.getD i 0 = C.getD j 0) : i = j := by
  rw [List.getD_eq_get C 0 hi, List.getD_eq_get C 0 hj] at he
  have := h.get_inj_iff.mp he
  exact congrArg Fin.val this

/-- What a successful attached allocation (`allocate_segment` followed by
severing the new segment's next link) guarantees when the allocator satisfies
the free-list invariants: descriptors and all other segments are untouched,
the returned index is fresh for any list disjoint from the free list and
bounded by the bump pointer, and the invariants are re-established. -/
theorem allocAttached_wf {s : State} {ns : Nat} {s1 : State} {F : List Nat}
    (hi : s.global_data.initialized ≠ 0)
    (hF : isChain s s.global_data.free_list_head F)
    (hFlt : ∀ x ∈ F, x < s.global_data.next_unused)
    (h : allocAttached s = .ok (ns, s1)) :
    s1.descriptors = s.descriptors ∧
    s1.global_data.initialized ≠ 0 ∧
    ns ≠ INVALID_INDEX ∧
    (s1.segments ns).next = INVALID_INDEX ∧
    (∀ j, j ≠ ns → s1.segments j = s.segments j) ∧
    (∀ j, (s1.segments j).data = (s.segments j).data) ∧
    s.global_data.next_unused ≤ s1.global_data.next_unused ∧
    ns < s1.global_data.next_unused ∧
    ∃ F', isChain s1 s1.global_data.free_list_head F' ∧
      (∀ x ∈ F', x < s1.global_data.next_unused) ∧
      (∀ x ∈ F', x ∈ F) ∧
      ns ∉ F' ∧
      (ns ∈ F ∨ s.global_data.next_unused ≤ ns) := by
  obtain ⟨sa, haa, hs1⟩ := allocAttached_ok h
  cases F with
  | nil =>
    have hflh : s.global_data.free_list_head = INVALID_INDEX := hF
    by_cases hn : s.global_data.next_unused < SEGMENT_COUNT
    · rw [alloc_bump s hi hflh hn] at haa
      cases haa
      subst hs1
      refine ⟨rfl, hi, by rw [invalid_index_eq, segment_count_eq] at *; omega, by simp, ?_, ?_,
        by show s.global_data.next_unused ≤ s.global_data.next_unused + 1; omega,
        by show s.global_data.next_unused < s.global_data.next_unused + 1; omega,
        [], ?_, by simp, by simp, by simp, Or.inr le_rfl⟩
      · intro j hj
        rw [setSeg_segments_ne _ _ _ _ hj]
      · intro j
        rcases eq_or_ne j s.global_data.next_unused with hj | hj
        · subst hj
          simp
        · rw [setSeg_segments_ne _ _ _ _ hj]
      · show (setSeg _ _ _).global_data.free_list_head = INVALID_INDEX
        rw [setSeg_global]
        exact hflh
    · rw [alloc_exhausted s hi hflh (by omega)] at haa
      cases haa
  | cons x F2 =>
    obtain ⟨hx, hxv, hch⟩ := hF
    rw [alloc_pop s hi (by rw [hx]; exact hxv)] at haa
    cases haa
    subst hs1
    have hnd := isChain_nodup (s.global_data.free_list_head :: F2) _
      (show isChain s s.global_data.free_list_head (s.global_data.free_list_head :: F2)
        from ⟨rfl, hx ▸ hxv, hx ▸ hch⟩)
    have hxF2 : s.global_data.free_list_head ∉ F2 := (List.nodup_cons.mp hnd).1
    refine ⟨rfl, hi, hx ▸ hxv, by simp, ?_, ?_, le_rfl, ?_, F2, ?_, ?_, ?_, hxF2,
      Or.inl (hx ▸ List.mem_cons_self x F2)⟩
    · intro j hj
      rw [setSeg_segments_ne _ _ _ _ hj]
    · intro j
      rcases eq_or_ne j s.global_data.free_list_head with hj | hj
      · subst hj
        simp
      · rw [setSeg_segments_ne _ _ _ _ hj]
    · show s.global_data.free_list_head < s.global_data.next_unused
      exact hFlt _ (hx ▸ List.mem_cons_self x F2)
    · show isChain _ (s.segments s.global_data.free_list_head).next F2
      refine isChain_congr F2 ?_ _ (hx ▸ hch)
      intro y hy
      rw [setSeg_segments_ne _ _ _ _ (fun he => hxF2 (by rw [← he]; exact hy))]
    · intro y hy
      show y < s.global_data.next_unused
      exact hFlt y (hx ▸ List.mem_cons_of_mem x hy)
    · intro y hy
      exact hx ▸ List.mem_cons_of_mem x hy

/-- The first `enqueue_byte` on an Empty queue under a well-formed allocator
establishes the chain invariant: a one-segment chain holding the single
byte. -/
theorem enq_first_chain {qi : Nat} {s s' : State} {b : Nat}
    (hu : (s.descriptors qi).in_use ≠ 0)
    (ht : (s.descriptors qi).tail_segment = INVALID_INDEX)
    (hwf : AllocWF s)
    (h : enqueue_byte qi b s = .ok s') :
    ∃ ns F', EnqChain qi [ns] 1 [b] F' s' := by
  obtain ⟨-, sp, hprep, hwrite⟩ := enqueue_ok_destruct h
  rcases enqPrepare_ok_cases hprep with ⟨hne, -⟩ | ⟨-, ns, s1, ha, hsp⟩
  · exact absurd ht hne
  have hfacts : s1.descriptors = s.descriptors ∧ s1.global_data.initialized ≠ 0 ∧
      ns ≠ INVALID_INDEX ∧ (s1.segments ns).next = INVALID_INDEX ∧
      ns < s1.global_data.next_unused ∧
      ∃ F', isChain s1 s1.global_data.free_list_head F' ∧
        (∀ x ∈ F', x < s1.global_data.next_unused) ∧ ns ∉ F' := by
    by_cases hi : s.global_data.initialized = 0
    · obtain ⟨sa, haa, hs1⟩ := allocAttached_ok ha
      rw [alloc_uninit s hi] at haa
      cases haa
      subst hs1
      refine ⟨rfl, Nat.one_ne_zero, by decide, by simp,
        by show (0 : Nat) < 1; decide, [], ?_, by simp, by simp⟩
      show (INVALID_INDEX = INVALID_INDEX)
      rfl
    · rcases hwf with hi' | ⟨F, hF, hFlt⟩
      · exact absurd hi' hi
      · obtain ⟨had, hinit, hnsv, hnsnext, -, -, -, hnslt, F', hF', hFlt', -, hnsF, -⟩ :=
          allocAttached_wf hi hF hFlt ha
        exact ⟨had, hinit, hnsv, hnsnext, hnslt, F', hF', hFlt', hnsF⟩
  obtain ⟨had, hinit, hnsv, hnsnext, hnslt, F', hF', hFlt', hnsF⟩ := hfacts
  -- fields of the prepared descriptor
  have hspd : sp.descriptors qi =
      { s1.descriptors qi with
        head_segment := ns, tail_segment := ns, head_offset := 0, tail_offset := 0 } := by
    rw [hsp, setQ_descriptors_self]
  have hspt : (sp.descriptors qi).tail_segment = ns := by rw [hspd]
  have hspto : (sp.descriptors qi).tail_offset = 0 := by rw [hspd]
  have hspsegs : sp.segments = s1.segments := by rw [hsp, setQ_segments]
  have hspg : sp.global_data = s1.global_data := by rw [hsp, setQ_global]
  -- the write phase cannot roll over (cursor goes 0 → 1 ≠ 14)
  have hWto : ((writeTail qi b sp).descriptors qi).tail_offset = 1 := by
    rw [writeTail_desc_self, hspto]
  rcases enqWrite_ok_cases hwrite with ⟨-, hw⟩ | ⟨hroll, -, -, -, -⟩
  swap
  · rw [hWto, seg_payload_eq] at hroll
    omega
  subst hw
  have hWdata : ((writeTail qi b sp).segments ns).data =
      Function.update ((s1.segments ns).data) 0 b := by
    have hwd := writeTail_data_self qi b sp
    rw [hspt, hspto, hspsegs] at hwd
    exact hwd
  refine ⟨ns, F', ?_, ?_, ?_, by simp, by simp, ?_, ?_, ?_, ?_, ?_, ?_, ?_, ?_,
    by rw [seg_payload_eq]; omega, by simp [seg_payload_eq], ?_, ?_, ?_⟩
  · rw [writeTail_global, hspg]
    exact hinit
  · rw [show (writeTail qi b sp).global_data.free_list_head =
      s1.global_data.free_list_head from by rw [writeTail_global, hspg]]
    refine isChain_congr F' ?_ _ hF'
    intro y hy
    rw [writeTail_next, hspsegs]
  · intro x hx
    rw [writeTail_global, hspg]
    exact hFlt' x hx
  · intro x hx
    rw [List.mem_singleton] at hx
    subst hx
    exact hnsF
  · intro x hx
    rw [List.mem_singleton] at hx
    subst hx
    rw [writeTail_global, hspg]
    exact hnslt
  · intro x hx
    rw [List.mem_singleton] at hx
    subst hx
    exact hnsv
  · rw [writeTail_desc_self, hspd]
    show (s1.descriptors qi).in_use ≠ 0
    rw [had]
    exact hu
  · rw [writeTail_desc_self, hspd]
    show ns = [ns].getD 0 0
    simp
  · rw [writeTail_desc_self, hspd]
  · rw [writeTail_desc_self, hspd]
    show ns = [ns].getD 0 0
    simp
  · rw [writeTail_desc_self, hspto]
  · intro i hi
    simp at hi
  · show ((writeTail qi b sp).segments ([ns].getD 0 0)).next = INVALID_INDEX
    rw [show ([ns].getD 0 0) = ns from by simp, writeTail_next, hspsegs]
    exact hnsnext
  · intro j hj
    simp only [List.length_singleton] at hj
    interval_cases j
    rw [show (0 / SEG_PAYLOAD_SIZE : Nat) = 0 from by rw [seg_payload_eq],
      show (0 % SEG_PAYLOAD_SIZE : Nat) = 0 from by rw [seg_payload_eq],
      show ([ns].getD 0 0) = ns from by simp, hWdata]
    simp

/-- Each further `enqueue_byte` preserves the chain invariant: the byte lands
at the write cursor of the tail segment, and when the tail fills up a fresh
segment (outside the current chain) is linked behind it. -/
theorem enq_step_chain {qi t b : Nat} {C L F : List Nat} {s s' : State}
    (hI : EnqChain qi C t L F s) (h : enqueue_byte qi b s = .ok s') :
    ∃ F2, (t + 1 < SEG_PAYLOAD_SIZE ∧ EnqChain qi C (t + 1) (L ++ [b]) F2 s') ∨
      (t + 1 = SEG_PAYLOAD_SIZE ∧
        ∃ ns, ns ∉ C ∧ EnqChain qi (C ++ [ns]) 0 (L ++ [b]) F2 s') := by
  obtain ⟨-, sp, hprep, hwrite⟩ := enqueue_ok_destruct h
  have hn : 0 < C.length := List.length_pos.mpr hI.cne
  have ht14 : t < 14 := by simpa [seg_payload_eq] using hI.tlt
  have hlen14 : L.length = 14 * (C.length - 1) + t := by simpa [seg_payload_eq] using hI.len
  rcases enqPrepare_ok_cases hprep with ⟨-, hspe⟩ | ⟨hinv, -⟩
  swap
  · rw [hI.tailseg] at hinv
    exact absurd hinv (hI.cinv _ (getD_mem (by omega)))
  subst sp
  have hmod : (t + 1) % 256 = t + 1 := Nat.mod_eq_of_lt (by omega)
  have hWd : (writeTail qi b s).descriptors qi =
      { s.descriptors qi with tail_offset := t + 1 } := by
    rw [writeTail_desc_self, hI.toff, hmod]
  have hWdata : ((writeTail qi b s).segments (C.getD (C.length - 1) 0)).data =
      Function.update ((s.segments (C.getD (C.length - 1) 0)).data) t b := by
    have hw := writeTail_data_self qi b s
    rw [hI.tailseg, hI.toff] at hw
    exact hw
  have hWne : ∀ j, j ≠ C.getD (C.length - 1) 0 →
      (writeTail qi b s).segments j = s.segments j := by
    intro j hj
    exact writeTail_seg_ne qi b j s (by rw [hI.tailseg]; exact hj)
  have hWg : (writeTail qi b s).global_data = s.global_data := writeTail_global qi b s
  have hdata' : ∀ (S : State),
      (∀ j, (S.segments j).data = ((writeTail qi b s).segments j).data) →
      ∀ j, (hj : j < (L ++ [b]).length) →
      (S.segments (C.getD (j / SEG_PAYLOAD_SIZE) 0)).data (j % SEG_PAYLOAD_SIZE) =
        (L ++ [b]).get ⟨j, hj⟩ := by
    intro S hS j hj
    rw [seg_payload_eq]
    have hj' : j < L.length + 1 := by simpa using hj
    rcases Nat.lt_or_ge j L.length with hlt | hge
    · rw [get_append_left hlt]
      rcases Nat.lt_or_ge (j / 14) (C.length - 1) with hdiv | hdiv
      · have hne : C.getD (j / 14) 0 ≠ C.getD (C.length - 1) 0 := by
          intro he
          have := nodup_getD_inj hI.cnd (by omega) (by omega) he
          omega
        rw [hS, hWne _ hne]
        have hd := hI.cdata j hlt
        rw [seg_payload_eq] at hd
        exact hd
      · have hdk : j / 14 = C.length - 1 := by omega
        have hjm : j % 14 < t := by omega
        rw [hS, hdk, hWdata, Function.update_noteq (by omega)]
        have hd := hI.cdata j hlt
        rw [seg_payload_eq, hdk] at hd
        exact hd
    · have hjL : j = L.length := by omega
      subst hjL
      rw [get_append_last]
      have hdk : L.length / 14 = C.length - 1 := by omega
      have hjm : L.length % 14 = t := by omega
      rw [hS, hdk, hjm, hWdata, Function.update_same]
  rcases enqWrite_ok_cases hwrite with ⟨hnr, rfl⟩ | ⟨hroll, ns, s3, ha3, rfl⟩
  · -- no rollover
    rw [hWd, seg_payload_eq] at hnr
    have hnr' : t + 1 ≠ 14 := by simpa using hnr
    refine ⟨F, .inl ⟨by rw [seg_payload_eq]; omega, ?_, ?_, ?_, hI.cne, hI.cnd, hI.cdisj,
      ?_, hI.cinv, ?_, ?_, ?_, ?_, ?_, by rw [seg_payload_eq]; omega,
      by simp [seg_payload_eq]; omega, ?_, ?_, ?_⟩⟩
    · rw [hWg]
      exact hI.ginit
    · rw [show (writeTail qi b s).global_data.free_list_head =
        s.global_data.free_list_head from by rw [hWg]]
      exact isChain_congr F (fun y _ => writeTail_next qi b y s) _ hI.flist
    · intro x hx
      rw [hWg]
      exact hI.flt x hx
    · intro x hx
      rw [hWg]
      exact hI.clt x hx
    · rw [hWd]
      exact hI.inuse
    · rw [hWd]
      exact hI.head
    · rw [hWd]
      exact hI.hoff
    · rw [hWd]
      exact hI.tailseg
    · rw [hWd]
    · intro i hi
      rw [writeTail_next]
      exact hI.chain i hi
    · rw [writeTail_next]
      exact hI.tnext
    · exact hdata' _ (fun j => rfl)
  · -- rollover
    rw [hWd, seg_payload_eq] at hroll
    have ht1 : t + 1 = 14 := by simpa using hroll
    have hWflist : isChain (writeTail qi b s)
        (writeTail qi b s).global_data.free_list_head F := by
      rw [show (writeTail qi b s).global_data.free_list_head =
        s.global_data.free_list_head from by rw [hWg]]
      exact isChain_congr F (fun y _ => writeTail_next qi b y s) _ hI.flist
    obtain ⟨had3, hinit3, hnsv, hnsnext, hsegne3, hdata3, hmono, hnslt, F2, hF2, hF2lt,
        hF2sub, hnsF2, hfresh⟩ :=
      allocAttached_wf (by rw [hWg]; exact hI.ginit) hWflist
        (by intro x hx; rw [hWg]; exact hI.flt x hx) ha3
    have hnsC : ns ∉ C := by
      rcases hfresh with hin | hge
      · exact fun hc => hI.cdisj ns hc hin
      · rw [hWg] at hge
        exact fun hc => absurd (hI.clt ns hc) (by omega)
    have hLd : (linkNewTail qi ns s3).descriptors qi =
        { s3.descriptors qi with tail_segment := ns, tail_offset := 0 } :=
      linkNewTail_desc_self qi ns s3
    have hLg : (linkNewTail qi ns s3).global_data = s3.global_data :=
      linkNewTail_global qi ns s3
    have hs3tail : (s3.descriptors qi).tail_segment = C.getD (C.length - 1) 0 := by
      rw [had3, hWd]
      exact hI.tailseg
    have hLself : (linkNewTail qi ns s3).segments (C.getD (C.length - 1) 0) =
        { s3.segments (C.getD (C.length - 1) 0) with next := ns } := by
      have hl := linkNewTail_seg_self qi ns s3
      rw [hs3tail] at hl
      exact hl
    have hLne : ∀ j, j ≠ C.getD (C.length - 1) 0 →
        (linkNewTail qi ns s3).segments j = s3.segments j := by
      intro j hj
      exact linkNewTail_seg_ne _ _ _ _ (by rw [hs3tail]; exact hj)
    have hLdata : ∀ j, ((linkNewTail qi ns s3).segments j).data = (s3.segments j).data := by
      intro j
      rcases eq_or_ne j (C.getD (C.length - 1) 0) with hj | hj
      · rw [hj, hLself]
      · rw [hLne j hj]
    have hTLne : ns ≠ C.getD (C.length - 1) 0 :=
      fun he => hnsC (he ▸ getD_mem (by omega))
    have hlen' : (C ++ [ns]).length - 1 = C.length := by simp
    refine ⟨F2, .inr ⟨by rw [seg_payload_eq]; omega, ns, hnsC, ?_, ?_, ?_, by simp,
      ?_, ?_, ?_, ?_, ?_, ?_, ?_, ?_, ?_, by rw [seg_payload_eq]; omega, ?_, ?_, ?_, ?_⟩⟩
    · rw [hLg]
      exact hinit3
    · rw [show (linkNewTail qi ns s3).global_data.free_list_head =
        s3.global_data.free_list_head from by rw [hLg]]
      refine isChain_congr F2 ?_ _ hF2
      intro y hy
      rw [hLne y (fun he => hI.cdisj _ (he ▸ getD_mem (by omega)) (hF2sub y hy))]
    · intro x hx
      rw [hLg]
      exact hF2lt x hx
    · exact List.nodup_append.mpr ⟨hI.cnd, List.nodup_singleton ns,
        fun a ha hb => hnsC ((List.mem_singleton.mp hb) ▸ ha)⟩
    · intro x hx
      rcases List.mem_append.mp hx with hx | hx
      · exact fun hf => hI.cdisj x hx (hF2sub x hf)
      · rw [List.mem_singleton.mp hx]
        exact hnsF2
    · intro x hx
      rw [hLg]
      rcases List.mem_append.mp hx with hx | hx
      · have h1 := hI.clt x hx
        rw [← hWg] at h1
        omega
      · rw [List.mem_singleton.mp hx]
        exact hnslt
    · intro x hx
      rcases List.mem_append.mp hx with hx | hx
      · exact hI.cinv x hx
      · rw [List.mem_singleton.mp hx]
        exact hnsv
    · rw [hLd]
      show (s3.descriptors qi).in_use ≠ 0
      rw [had3, hWd]
      exact hI.inuse
    · rw [hLd]
      show (s3.descriptors qi).head_segment = (C ++ [ns]).getD 0 0
      rw [had3, hWd, getD_append_lt C ns 0 0 (by omega)]
      exact hI.head
    · rw [hLd]
      show (s3.descriptors qi).head_offset = 0
      rw [had3, hWd]
      exact hI.hoff
    · rw [hLd]
      show ns = (C ++ [ns]).getD ((C ++ [ns]).length - 1) 0
      rw [hlen', getD_append_len]
    · rw [hLd]
    · simp [seg_payload_eq]
      omega
    · intro i hi
      rw [hlen'] at *
      rcases Nat.lt_or_ge (i + 1) C.length with hi2 | hi2
      · have hiC : C.getD i 0 ≠ C.getD (C.length - 1) 0 := by
          intro he
          have := nodup_getD_inj hI.cnd (by omega) (by omega) he
          omega
        have hins : C.getD i 0 ≠ ns := fun he => hnsC (he ▸ getD_mem (by omega))
        rw [getD_append_lt C ns 0 i (by omega), getD_append_lt C ns 0 (i + 1) (by omega),
          hLne _ hiC, hsegne3 _ hins, writeTail_next]
        exact hI.chain i hi2
      · have hie : i = C.length - 1 := by
          simp at hi
          omega
        subst hie
        rw [getD_append_lt C ns 0 _ (by omega)]
        rw [show C.length - 1 + 1 = C.length from by omega, getD_append_len, hLself]
    · rw [hlen', getD_append_len]
      rw [hLne _ hTLne]
      exact hnsnext
    · intro j hj
      have hj' : j < L.length + 1 := by simpa using hj
      have hdiv : j / SEG_PAYLOAD_SIZE < C.length := by
        rw [seg_payload_eq]
        omega
      rw [getD_append_lt C ns 0 _ hdiv]
      exact hdata' _ (fun j' => by rw [hLdata, hdata3]) j hj

/-- Iterating `enq_step_chain` over a list of bytes: a run of enqueues
extends the held bytes by exactly that list. -/
theorem enqRun_mid {qi t : Nat} {C L F : List Nat} {s s' : State} :
    ∀ {M : List Nat}, EnqChain qi C t L F s → enqRun qi M s = .ok s' →
    ∃ C' t' F', EnqChain qi C' t' (L ++ M) F' s' := by
  intro M
  induction M generalizing C t L F s with
  | nil =>
    intro hI h
    simp [enqRun] at h
    exact ⟨C, t, F, by rw [List.append_nil]; exact h ▸ hI⟩
  | cons b bs ih =>
    intro hI h
    cases he : enqueue_byte qi b s with
    | error e =>
      rw [enqRun, he] at h
      exact absurd h (by simp)
    | ok s1 =>
      rw [enqRun, he] at h
      obtain ⟨F2, hstep⟩ := enq_step_chain hI he
      rcases hstep with ⟨-, hE⟩ | ⟨-, ns, -, hE⟩
      · obtain ⟨C', t', F', hout⟩ := ih hE h
        refine ⟨C', t', F', ?_⟩
        rw [show L ++ b :: bs = (L ++ [b]) ++ bs from by simp]
        exact hout
      · obtain ⟨C', t', F', hout⟩ := ih hE h
        refine ⟨C', t', F', ?_⟩
        rw [show L ++ b :: bs = (L ++ [b]) ++ bs from by simp]
        exact hout

/-- Reading starts at offset 0 of segment 0 of the chain: the enqueue
invariant entails the dequeue invariant. -/
theorem enq_to_deq {qi t : Nat} {C L F : List Nat} {s : State}
    (hI : EnqChain qi C t L F s) : DeqChain qi C t 0 0 L s :=
  ⟨hI.inuse, List.length_pos.mpr hI.cne, hI.head, hI.hoff, hI.tailseg, hI.toff,
   by rw [seg_payload_eq]; omega, hI.tlt, hI.len, hI.cnd, hI.cinv,
   fun i _ hi => hI.chain i hi,
   fun j _ hj => hI.cdata j hj⟩

/-- Unfolding one step of `deqRun`. -/
theorem deqRun_succ {qi k b : Nat} {s s1 s2 : State} {bs : List Nat}
    (h1 : dequeue_byte qi s = .ok (b, s1)) (h2 : deqRun qi k s1 = .ok (bs, s2)) :
    deqRun qi (k + 1) s = .ok (b :: bs, s2) := by
  simp [deqRun, h1, h2]

/-- `List.drop` peels off the element at the drop position. -/
theorem drop_cons_get : ∀ (L : List Nat) (d : Nat) (h : d < L.length),
    L.drop d = L.get ⟨d, h⟩ :: L.drop (d + 1)
  | _ :: _, 0, _ => rfl
  | _ :: l, d + 1, h => drop_cons_get l d (Nat.lt_of_succ_lt_succ h)

/-- A queue satisfying the dequeue invariant with `k` bytes left to read
yields exactly those bytes: each `dequeue_byte` returns the byte at the read
position and re-establishes the invariant one position further, whether it
advances the cursor, moves to the next segment, or (on the last byte) resets
the queue to Empty. -/
theorem deq_all (k : Nat) : ∀ {qi t p r : Nat} {C L : List Nat} {s : State},
    DeqChain qi C t p r L s →
    SEG_PAYLOAD_SIZE * p + r + k = L.length →
    ∃ s', deqRun qi k s = .ok (L.drop (SEG_PAYLOAD_SIZE * p + r), s') := by
  induction k with
  | zero =>
    intro qi t p r C L s hD hrem
    refine ⟨s, ?_⟩
    rw [show SEG_PAYLOAD_SIZE * p + r = L.length from by omega, List.drop_length]
    rfl
  | succ k ih =>
    intro qi t p r C L s hD hrem
    have hn : 0 < C.length := Nat.lt_of_le_of_lt (Nat.zero_le p) hD.plt
    have hp := hD.plt
    have hr14 : r < 14 := by simpa [seg_payload_eq] using hD.rlt
    have ht14 : t < 14 := by simpa [seg_payload_eq] using hD.tlt
    have hlen14 : L.length = 14 * (C.length - 1) + t := by
      simpa [seg_payload_eq] using hD.len
    have hrem14 : 14 * p + r + (k + 1) = L.length := by
      rw [seg_payload_eq] at hrem
      exact hrem
    have hdlt : SEG_PAYLOAD_SIZE * p + r < L.length := by
      rw [seg_payload_eq]
      omega
    have hhv : (s.descriptors qi).head_segment ≠ INVALID_INDEX := by
      rw [hD.head]
      exact hD.cinv _ (getD_mem hD.plt)
    have hAd : (deqAdvance qi s).descriptors qi =
        { s.descriptors qi with head_offset := r + 1 } := by
      rw [deqAdvance_desc_self, hD.hoff, Nat.mod_eq_of_lt (by omega)]
    have hAh : ((deqAdvance qi s).descriptors qi).head_segment = C.getD p 0 := by
      rw [hAd]
      exact hD.head
    have hAt : ((deqAdvance qi s).descriptors qi).tail_segment =
        C.getD (C.length - 1) 0 := by
      rw [hAd]
      exact hD.tailseg
    have hAo : ((deqAdvance qi s).descriptors qi).head_offset = r + 1 := by
      rw [hAd]
    have hAto : ((deqAdvance qi s).descriptors qi).tail_offset = t := by
      rw [hAd]
      exact hD.toff
    have hdiv : (SEG_PAYLOAD_SIZE * p + r) / SEG_PAYLOAD_SIZE = p := by
      rw [seg_payload_eq]
      omega
    have hmod : (SEG_PAYLOAD_SIZE * p + r) % SEG_PAYLOAD_SIZE = r := by
      rw [seg_payload_eq]
      omega
    have hval : deqValue qi s = L.get ⟨SEG_PAYLOAD_SIZE * p + r, hdlt⟩ := by
      unfold deqValue
      rw [hD.head, hD.hoff]
      have hc := hD.cdata (SEG_PAYLOAD_SIZE * p + r) (Nat.le_refl _) hdlt
      rw [hdiv, hmod] at hc
      exact hc
    by_cases hb1 : p = C.length - 1 ∧ r + 1 = t
    · -- queue-became-empty branch: this is the last byte
      obtain ⟨hpe, hrt⟩ := hb1
      have hcond : ((deqAdvance qi s).descriptors qi).head_segment =
            ((deqAdvance qi s).descriptors qi).tail_segment ∧
          ((deqAdvance qi s).descriptors qi).head_offset =
            ((deqAdvance qi s).descriptors qi).tail_offset := by
        refine ⟨?_, ?_⟩
        · rw [hAh, hAt, hpe]
        · rw [hAo, hAto, hrt]
      have hk0 : k = 0 := by omega
      subst hk0
      have hstep : dequeue_byte qi s = .ok (deqValue qi s,
          deqReset qi (free_segment (C.getD p 0) (deqAdvance qi s))) := by
        unfold dequeue_byte
        rw [if_neg hD.inuse, if_neg hhv, if_pos hcond, hAh]
      refine ⟨deqReset qi (free_segment (C.getD p 0) (deqAdvance qi s)), ?_⟩
      have h0 : deqRun qi 0 (deqReset qi (free_segment (C.getD p 0) (deqAdvance qi s))) =
          .ok ([], deqReset qi (free_segment (C.getD p 0) (deqAdvance qi s))) := rfl
      rw [deqRun_succ hstep h0, hval,
        drop_cons_get L (SEG_PAYLOAD_SIZE * p + r) hdlt,
        show SEG_PAYLOAD_SIZE * p + r + 1 = L.length from by omega, List.drop_length]
    · -- not the coincident-cursors branch
      have hcond1 : ¬(((deqAdvance qi s).descriptors qi).head_segment =
            ((deqAdvance qi s).descriptors qi).tail_segment ∧
          ((deqAdvance qi s).descriptors qi).head_offset =
            ((deqAdvance qi s).descriptors qi).tail_offset) := by
        rintro ⟨h1, h2⟩
        rw [hAh, hAt] at h1
        rw [hAo, hAto] at h2
        have hpe := nodup_getD_inj hD.cnd hp (by omega) h1
        exact hb1 ⟨by omega, h2⟩
      by_cases hb2 : r + 1 = 14
      · -- head segment fully consumed: advance to next segment
        have hp1 : p + 1 < C.length := by
          rcases Nat.lt_or_ge (p + 1) C.length with h | h
          · exact h
          · omega
        have hcond2 : ((deqAdvance qi s).descriptors qi).head_offset =
            SEG_PAYLOAD_SIZE := by
          rw [hAo, seg_payload_eq, hb2]
        have hstep : dequeue_byte qi s = .ok (deqValue qi s,
            free_segment (C.getD p 0) (deqNextSeg qi (deqAdvance qi s))) := by
          unfold dequeue_byte
          rw [if_neg hD.inuse, if_neg hhv, if_neg hcond1, if_pos hcond2, hAh]
        have hNd : (deqNextSeg qi (deqAdvance qi s)).descriptors qi =
            { (deqAdvance qi s).descriptors qi with
              head_segment := C.getD (p + 1) 0, head_offset := 0 } := by
          rw [deqNextSeg_desc_self, deqAdvance_segments, hAh,
            hD.chain p (Nat.le_refl p) hp1]
        have hsdata : ∀ X, ((free_segment (C.getD p 0)
            (deqNextSeg qi (deqAdvance qi s))).segments X).data =
            (s.segments X).data := by
          intro X
          rw [free_segment_data, deqNextSeg_segments, deqAdvance_segments]
        have hD' : DeqChain qi C t (p + 1) 0 L
            (free_segment (C.getD p 0) (deqNextSeg qi (deqAdvance qi s))) := by
          refine ⟨?_, hp1, ?_, ?_, ?_, ?_, by rw [seg_payload_eq]; omega, hD.tlt,
            hD.len, hD.cnd, hD.cinv, ?_, ?_⟩
          · rw [free_segment_descriptors, hNd, hAd]
            exact hD.inuse
          · rw [free_segment_descriptors, hNd]
          · rw [free_segment_descriptors, hNd]
          · rw [free_segment_descriptors, hNd, hAd]
            exact hD.tailseg
          · rw [free_segment_descriptors, hNd, hAd]
            exact hD.toff
          · intro i hi hi1
            have hne : C.getD i 0 ≠ C.getD p 0 := by
              intro he
              have := nodup_getD_inj hD.cnd (by omega) hp he
              omega
            rw [free_segment_segments_ne _ _ _ hne, deqNextSeg_segments,
              deqAdvance_segments]
            exact hD.chain i (by omega) hi1
          · intro j hj hjl
            rw [hsdata]
            refine hD.cdata j ?_ hjl
            rw [seg_payload_eq] at hj ⊢
            omega
        obtain ⟨s2, h2⟩ := ih hD' (by rw [seg_payload_eq] at *; omega)
        rw [show SEG_PAYLOAD_SIZE * (p + 1) + 0 = SEG_PAYLOAD_SIZE * p + r + 1 from by
          rw [seg_payload_eq]; omega] at h2
        refine ⟨s2, ?_⟩
        rw [deqRun_succ hstep h2, hval,
          drop_cons_get L (SEG_PAYLOAD_SIZE * p + r) hdlt]
      · -- plain cursor advance within the head segment
        have hcond2 : ¬(((deqAdvance qi s).descriptors qi).head_offset =
            SEG_PAYLOAD_SIZE) := by
          rw [hAo, seg_payload_eq]
          omega
        have hstep : dequeue_byte qi s = .ok (deqValue qi s, deqAdvance qi s) := by
          unfold dequeue_byte
          rw [if_neg hD.inuse, if_neg hhv, if_neg hcond1, if_neg hcond2]
        have hD' : DeqChain qi C t p (r + 1) L (deqAdvance qi s) := by
          refine ⟨?_, hp, hAh, hAo, hAt, hAto, by rw [seg_payload_eq]; omega, hD.tlt,
            hD.len, hD.cnd, hD.cinv, ?_, ?_⟩
          · rw [hAd]
            exact hD.inuse
          · intro i hi hi1
            rw [deqAdvance_segments]
            exact hD.chain i hi hi1
          · intro j hj hjl
            rw [deqAdvance_segments]
            refine hD.cdata j ?_ hjl
            rw [seg_payload_eq] at hj ⊢
            omega
        obtain ⟨s2, h2⟩ := ih hD' (by rw [seg_payload_eq] at *; omega)
        rw [show SEG_PAYLOAD_SIZE * p + (r + 1) = SEG_PAYLOAD_SIZE * p + r + 1 from
          rfl] at h2
        refine ⟨s2, ?_⟩
        rw [deqRun_succ hstep h2, hval,
          drop_cons_get L (SEG_PAYLOAD_SIZE * p + r) hdlt]

/-- Claim C1: strict FIFO for a single queue. For every queue handle and
byte list: starting from any state in which the queue is Empty (tail at the
sentinel) and the allocator satisfies its free-list/bump-pointer invariants
(`AllocWF` — never initialized, or an in-bounds sentinel-terminated free
list, as after any ordinary run), if enqueuing the bytes in order completes
without a fatal fault, then that many successive `dequeue_byte` calls return
exactly those bytes in that order. -/
theorem fifo_single_queue {qi : Nat} {L : List Nat} {s s1 : State}
    (hu : (s.descriptors qi).in_use ≠ 0)
    (ht : (s.descriptors qi).tail_segment = INVALID_INDEX)
    (hwf : AllocWF s)
    (henq : enqRun qi L s = .ok s1) :
    ∃ s2, deqRun qi L.length s1 = .ok (L, s2) := by
  cases L with
  | nil =>
    exact ⟨s1, rfl⟩
  | cons b bs =>
    cases he : enqueue_byte qi b s with
    | error e =>
      rw [enqRun, he] at henq
      exact absurd henq (by simp)
    | ok sA =>
      rw [enqRun, he] at henq
      obtain ⟨ns, F', hE1⟩ := enq_first_chain hu ht hwf he
      obtain ⟨C', t', F'', hE⟩ := enqRun_mid hE1 henq
      rw [show [b] ++ bs = b :: bs from rfl] at hE
      have hD := enq_to_deq hE
      obtain ⟨s2, h2⟩ := deq_all (b :: bs).length hD (by simp)
      refine ⟨s2, ?_⟩
      rw [show SEG_PAYLOAD_SIZE * 0 + 0 = 0 from by omega] at h2
      rw [h2]
      rw [List.drop_zero]

/-- Witness for C1 at a concrete run the allocator reuse matters for:
create a queue, enqueue and dequeue one byte so the queue is drained and the
freed segment sits on the free list, then refill with bytes 5, 6, 7 and
dequeue all three. -/
theorem fifo_single_queue_witness :
    (drained.descriptors 0).in_use ≠ 0 ∧
    (drained.descriptors 0).tail_segment = INVALID_INDEX ∧
    drained.global_data.initialized ≠ 0 ∧
    drained.global_data.free_list_head = 0 ∧
    isChain drained drained.global_data.free_list_head [0] ∧
    enqRun 0 [5, 6, 7] drained = .ok wrefill ∧
    ∃ s2, deqRun 0 [5, 6, 7].length wrefill = .ok ([5, 6, 7], s2) :=
  ⟨by decide, by decide, by decide, by decide, by decide, rfl,
   @fifo_single_queue 0 [5, 6, 7] drained wrefill (by decide) (by decide)
     (Or.inr ⟨[0], by decide, by decide⟩) rfl⟩

end QueueManager
